import Mathlib

/-!
Verification development for the CODEOWNERS-aware approval-prediction system
(`codeowners_ml_system.py`).  The Python class `CodeownersMLPredictor` is
shallow-embedded below: its pure helpers become Lean functions on `List Char`
strings, its mutable object state becomes an explicit `MLState` record that is
threaded through the training / prediction functions, and the external
classifier library is abstracted as an opaque `fit` / `predictProba` pair, as
the code treats it.  Python's `/` operator (which raises `ZeroDivisionError`
on a zero denominator) is embedded as the fallible `pyDivN : .. → Option ℚ`.

Strings are modelled as `List Char`; Python compares strings by code points,
which coincides with comparing the embedded character lists by `Char` value.
-/

/-- Python string, embedded as its list of characters. -/
abbrev PyStr := List Char

/-- Python string comparison `a <= b` (lexicographic on code points). -/
def pyStrLe : PyStr → PyStr → Bool
  | [], _ => true
  | _ :: _, [] => false
  | a :: as, b :: bs => if a = b then pyStrLe as bs else decide (a < b)

/-- Python's `str.replace(old, new)` for a non-empty `old`: scan left to
right, replacing non-overlapping occurrences.  The fuel is the length of the
string being scanned; every step consumes at least one character, so the
fuel never runs out on the top-level call in `pyReplace`. -/
def pyReplaceAux : Nat → PyStr → PyStr → PyStr → PyStr
  | 0, s, _, _ => s
  | fuel + 1, s, pat, rep =>
    match s with
    | [] => []
    | c :: cs =>
      if pat ≠ [] ∧ pat.isPrefixOf (c :: cs) then
        rep ++ pyReplaceAux fuel ((c :: cs).drop pat.length) pat rep
      else c :: pyReplaceAux fuel cs pat rep

/-- Python's `s.replace(pat, rep)` (for the non-empty `pat`s the code uses). -/
def pyReplace (s pat rep : PyStr) : PyStr := pyReplaceAux s.length s pat rep

/-!
## Regular-expression engine

`_matches_pattern` builds a regular expression *string* from the CODEOWNERS
pattern by textual replacement and hands it to Python's `re.match`.  We embed
the fragment of Python's regex language that the translation emits:
literal characters, `\c` escapes, the class `[^/]`, `.`, the postfix `*`,
the anchors `^` and `$`, and the two fixed groups `(^|/)` and `(/|$)`.
Regex strings outside this fragment fail to parse, and a parse failure is
treated as "no match" — mirroring the `except re.error: return False` arm
(other metacharacters such as `+`, `?` or general groups never arise from
the translation of the patterns considered here).
`re.match` anchors at the start of the string only, so matching succeeds as
soon as the whole regex consumes a *prefix* of the subject.
-/

/-- A character-consuming regex atom. -/
inductive CElem
  | lit (c : Char)
  | nonSlash
  | dot
deriving DecidableEq

/-- A regex element: an atom, a starred atom, an anchor, or one of the two
fixed alternation groups `(^|/)` and `(/|$)` emitted by the translation. -/
inductive RElem
  | one (e : CElem)
  | star (e : CElem)
  | caret
  | dollar
  | altSS
  | altSE
deriving DecidableEq

/-- Does atom `e` match character `ch`?  (`.` matches anything but a newline.) -/
def matchC : CElem → Char → Bool
  | .lit c, ch => ch = c
  | .nonSlash, ch => ch ≠ '/'
  | .dot, ch => ch ≠ '\n'

/-- Backtracking matcher: does regex `rx` match some prefix of `s`?
`atStart` records whether the current position is the start of the subject
(for `^`).  Every recursive call strictly decreases `rx.length + s.length`,
so the fuel supplied by `reMatch` suffices. -/
def reMatchAux : Nat → List RElem → PyStr → Bool → Bool
  | 0, _, _, _ => false
  | fuel + 1, rx, s, atStart =>
    match rx with
    | [] => true
    | .one e :: rest =>
      match s with
      | [] => false
      | c :: cs => matchC e c && reMatchAux fuel rest cs false
    | .star e :: rest =>
      reMatchAux fuel rest s atStart ||
        (match s with
         | [] => false
         | c :: cs => matchC e c && reMatchAux fuel (.star e :: rest) cs false)
    | .caret :: rest => atStart && reMatchAux fuel rest s atStart
    | .dollar :: rest => s.isEmpty && reMatchAux fuel rest s atStart
    | .altSS :: rest =>
      (atStart && reMatchAux fuel rest s atStart) ||
        (match s with
         | '/' :: cs => reMatchAux fuel rest cs false
         | _ => false)
    | .altSE :: rest =>
      (match s with
       | '/' :: cs => reMatchAux fuel rest cs false
       | _ => false) ||
        (s.isEmpty && reMatchAux fuel rest s atStart)

/-- Python's `bool(re.match(rx, s))` for the embedded regex fragment. -/
def reMatch (rx : List RElem) (s : PyStr) : Bool :=
  reMatchAux (rx.length + s.length + 1) rx s true

/-- Metacharacters of Python regexes that the embedded fragment does not
cover; a regex containing one of them (outside the recognised forms) fails
to parse and is treated as no-match. -/
def regexMeta : List Char := ['(', ')', '[', ']', '|', '+', '?', '\x7b', '\x7d', '*', '\\', '$', '^']

/-- Parse a regex string into the embedded fragment. -/
def parseRegex : PyStr → Option (List RElem)
  | [] => some []
  | '(' :: '^' :: '|' :: '/' :: ')' :: rest => (parseRegex rest).map (.altSS :: ·)
  | '(' :: '/' :: '|' :: '$' :: ')' :: rest => (parseRegex rest).map (.altSE :: ·)
  | '[' :: '^' :: '/' :: ']' :: '*' :: rest => (parseRegex rest).map (.star .nonSlash :: ·)
  | '[' :: '^' :: '/' :: ']' :: rest => (parseRegex rest).map (.one .nonSlash :: ·)
  | '\\' :: c :: '*' :: rest => (parseRegex rest).map (.star (.lit c) :: ·)
  | '\\' :: c :: rest => (parseRegex rest).map (.one (.lit c) :: ·)
  | '.' :: '*' :: rest => (parseRegex rest).map (.star .dot :: ·)
  | '.' :: rest => (parseRegex rest).map (.one .dot :: ·)
  | '^' :: rest => (parseRegex rest).map (.caret :: ·)
  | '$' :: rest => (parseRegex rest).map (.dollar :: ·)
  | c :: '*' :: rest =>
    if c ∈ regexMeta then none else (parseRegex rest).map (.star (.lit c) :: ·)
  | c :: rest =>
    if c ∈ regexMeta then none else (parseRegex rest).map (.one (.lit c) :: ·)

/-- The regex string `_matches_pattern` builds from a CODEOWNERS pattern:
escape dots, turn `*` into `[^/]*`, collapse the doubled class back to `.*`,
append `.*` for directory patterns, anchor (`/`-prefixed patterns drop the
slash and get `^`, others get `(^|/)`), and require a segment boundary for
wildcard-free non-directory patterns. -/
def toRegexChars (pattern : PyStr) : PyStr :=
  let r1 := pyReplace pattern (['.']) (['\\', '.'])
  let r2 := pyReplace r1 (['*']) (('[' : Char) :: '^' :: '/' :: ']' :: '*' :: [])
  let r3 := pyReplace r2 (("[^/]*[^/]*").toList) ((".*").toList)
  let r4 := if pattern.getLast? = some '/' then r3 ++ ('.' :: '*' :: []) else r3
  let r5 := if pattern.head? = some '/' then '^' :: r4.drop 1 else (("(^|/)").toList) ++ r4
  if pattern.getLast? ≠ some '/' ∧ '*' ∉ pattern then r5 ++ (("(/|$)").toList) else r5

/-- `CodeownersMLPredictor._matches_pattern`: translate the CODEOWNERS
pattern to a regex and test it against the file path with `re.match`. -/
def matches_pattern (pattern file_path : PyStr) : Bool :=
  match parseRegex (toRegexChars pattern) with
  | none => false
  | some rx => reMatch rx file_path

/-!
## Group resolution (`match_files_to_groups`)
-/

/-- A parsed CODEOWNERS rule (`parse_codeowners` produces
`{'pattern': .., 'owners': .., 'rule_index': ..}`). -/
structure Rule where
  pattern : PyStr
  owners : List PyStr
  rule_index : Nat
deriving DecidableEq

/-- The ordering Python's `sorted` uses on strings, as a proposition. -/
def PyLe (a b : PyStr) : Prop := pyStrLe a b = true

instance : DecidableRel PyLe := fun a b => inferInstanceAs (Decidable (pyStrLe a b = true))

/-- Python's `sorted` on a list of strings (insertion sort; for a total
order on strings any sorting algorithm returns the same sorted list). -/
def sortOwners (l : List PyStr) : List PyStr := List.insertionSort PyLe l

/-- Python's `'_'.join`. -/
def joinUnderscore : List PyStr → PyStr
  | [] => []
  | [x] => x
  | x :: xs => x ++ '_' :: joinUnderscore xs

/-- The group identifier `'_'.join(sorted(owners))` of line 100. -/
def groupIdOf (owners : List PyStr) : PyStr :=
  joinUnderscore (sortOwners owners)

/-- Python's `group_id.split('_')` (as used to recover `group_owners`). -/
def splitUnderscore : PyStr → List PyStr
  | [] => [[]]
  | c :: cs =>
    if c = '_' then [] :: splitUnderscore cs
    else
      match splitUnderscore cs with
      | [] => [[c]]
      | w :: ws => (c :: w) :: ws

/-- The inner loop of `match_files_to_groups`: `matched_rule = None`, then
`for rule in rules: if matches: matched_rule = rule` — i.e. the *last*
matching rule survives. -/
def findLastMatch (rules : List Rule) (f : PyStr) : Option Rule :=
  rules.foldl (fun acc r => if matches_pattern r.pattern f then some r else acc) none

/-- Append `f` to the bucket of key `k` in an insertion-ordered association
list (the embedding of `defaultdict(list)`): an existing key keeps its
position and grows its list; a new key is appended at the end. -/
def addToGroup (gs : List (PyStr × List PyStr)) (k : PyStr) (f : PyStr) :
    List (PyStr × List PyStr) :=
  match gs with
  | [] => [(k, [f])]
  | (k', fs) :: rest =>
    if k' = k then (k', fs ++ [f]) :: rest else (k', fs) :: addToGroup rest k f

/-- `CodeownersMLPredictor.match_files_to_groups`: for each file keep the
last matching rule; bucket matched files under `'_'.join(sorted(owners))`
of the winning rule; files with no matching rule are dropped. -/
def match_files_to_groups (files : List PyStr) (rules : List Rule) :
    List (PyStr × List PyStr) :=
  files.foldl
    (fun gs f =>
      match findLastMatch rules f with
      | none => gs
      | some r => addToGroup gs (groupIdOf r.owners) f)
    []

example : matches_pattern (("*").toList) (("x/y.txt").toList) = true := by decide
example : matches_pattern (("/x/").toList) (("x/y.txt").toList) = true := by decide
example : matches_pattern (("**/test_*.py").toList) (("a/b/test_x.py").toList) = true := by decide
example : matches_pattern (("**/test_*.py").toList) (("test_x.py").toList) = false := by decide
example :
    match_files_to_groups [(("x/y.txt").toList)]
      [⟨(("*").toList), [(("a").toList)], 0⟩, ⟨(("/x/").toList), [(("b").toList)], 1⟩] =
      [((("b").toList), [(("x/y.txt").toList)])] := by decide

/-!
## Properties of the string order and of `groupIdOf`
-/

theorem pyStrLe_total (a b : PyStr) : pyStrLe a b = true ∨ pyStrLe b a = true := by
  induction a generalizing b with
  | nil => left; rfl
  | cons x xs ih =>
    cases b with
    | nil => right; rfl
    | cons y ys =>
      by_cases hxy : x = y
      · subst hxy; simpa [pyStrLe] using ih ys
      · rcases lt_or_gt_of_ne hxy with h | h
        · left; simp [pyStrLe, hxy]; exact h
        · right; simp [pyStrLe, Ne.symm hxy]; exact h

theorem pyStrLe_antisymm : ∀ (a b : PyStr), pyStrLe a b = true → pyStrLe b a = true → a = b := by
  intro a
  induction a with
  | nil =>
    intro b _ hba
    cases b with
    | nil => rfl
    | cons y ys => simp [pyStrLe] at hba
  | cons x xs ih =>
    intro b hab hba
    cases b with
    | nil => simp [pyStrLe] at hab
    | cons y ys =>
      by_cases hxy : x = y
      · subst hxy
        simp [pyStrLe] at hab hba
        rw [ih ys hab hba]
      · simp [pyStrLe, hxy, Ne.symm hxy] at hab hba
        exact absurd hba (not_lt_of_lt hab)

theorem pyStrLe_trans : ∀ (a b c : PyStr),
    pyStrLe a b = true → pyStrLe b c = true → pyStrLe a c = true := by
  intro a
  induction a with
  | nil => intro b c _ _; rfl
  | cons x xs ih =>
    intro b c hab hbc
    cases b with
    | nil => simp [pyStrLe] at hab
    | cons y ys =>
      cases c with
      | nil => simp [pyStrLe] at hbc
      | cons z zs =>
        by_cases hxy : x = y
        · subst hxy
          by_cases hxz : x = z
          · subst hxz
            simp [pyStrLe] at hab hbc ⊢
            exact ih ys zs hab hbc
          · simp [pyStrLe, hxz] at hbc ⊢
            exact hbc
        · by_cases hyz : y = z
          · subst hyz
            simp [pyStrLe, hxy] at hab ⊢
            exact hab
          · simp [pyStrLe, hxy, hyz] at hab hbc
            by_cases hxz : x = z
            · subst hxz; exact absurd (lt_trans hab hbc) (lt_irrefl x)
            · simp [pyStrLe, hxz]
              exact lt_trans hab hbc

instance : IsTotal PyStr PyLe := ⟨fun a b => pyStrLe_total a b⟩

instance : IsTrans PyStr PyLe := ⟨fun a b c => pyStrLe_trans a b c⟩

instance : IsAntisymm PyStr PyLe := ⟨fun a b => pyStrLe_antisymm a b⟩

theorem sortOwners_perm (l : List PyStr) : (sortOwners l).Perm l :=
  List.perm_insertionSort PyLe l

theorem sortOwners_sorted (l : List PyStr) : List.Sorted PyLe (sortOwners l) :=
  List.sorted_insertionSort PyLe l

theorem sortOwners_eq_of_perm {l₁ l₂ : List PyStr} (h : l₁.Perm l₂) :
    sortOwners l₁ = sortOwners l₂ :=
  List.eq_of_perm_of_sorted
    ((sortOwners_perm l₁).trans (h.trans (sortOwners_perm l₂).symm))
    (sortOwners_sorted l₁) (sortOwners_sorted l₂)

theorem groupIdOf_perm {o₁ o₂ : List PyStr} (h : o₁.Perm o₂) :
    groupIdOf o₁ = groupIdOf o₂ := by
  unfold groupIdOf
  rw [sortOwners_eq_of_perm h]

/-!
## Properties of `findLastMatch`
-/

theorem findLastMatch_fold_skip {f : PyStr} :
    ∀ (post : List Rule) (acc : Option Rule),
      (∀ r' ∈ post, matches_pattern r'.pattern f = false) →
      post.foldl (fun acc r => if matches_pattern r.pattern f then some r else acc) acc = acc := by
  intro post
  induction post with
  | nil => intro acc _; rfl
  | cons r rs ih =>
    intro acc h
    rw [List.foldl_cons, if_neg]
    · exact ih acc fun r' hr' => h r' (List.mem_cons_of_mem _ hr')
    · simp [h r (List.mem_cons_self _ _)]

theorem findLastMatch_last {pre post : List Rule} {r : Rule} {f : PyStr}
    (hm : matches_pattern r.pattern f = true)
    (hpost : ∀ r' ∈ post, matches_pattern r'.pattern f = false) :
    findLastMatch (pre ++ r :: post) f = some r := by
  unfold findLastMatch
  rw [List.foldl_append, List.foldl_cons, if_pos hm]
  exact findLastMatch_fold_skip post (some r) hpost

theorem findLastMatch_none {rules : List Rule} {f : PyStr}
    (h : ∀ r ∈ rules, matches_pattern r.pattern f = false) :
    findLastMatch rules f = none :=
  findLastMatch_fold_skip rules none h

/-!
## Properties of `addToGroup`
-/

theorem addToGroup_mem_self : ∀ (gs : List (PyStr × List PyStr)) (k f : PyStr),
    ∃ fs, (k, fs) ∈ addToGroup gs k f ∧ f ∈ fs := by
  intro gs
  induction gs with
  | nil => intro k f; exact ⟨[f], by simp [addToGroup], by simp⟩
  | cons p rest ih =>
    intro k f
    obtain ⟨k0, fs0⟩ := p
    by_cases hk : k0 = k
    · subst hk
      exact ⟨fs0 ++ [f], by simp [addToGroup], by simp⟩
    · obtain ⟨fs, hmem, hf⟩ := ih k f
      exact ⟨fs, by simp [addToGroup, hk]; exact Or.inr hmem, hf⟩

theorem addToGroup_preserve : ∀ (gs : List (PyStr × List PyStr)) (k' f' : PyStr) {k f : PyStr},
    (∃ fs, (k, fs) ∈ gs ∧ f ∈ fs) → ∃ fs, (k, fs) ∈ addToGroup gs k' f' ∧ f ∈ fs := by
  intro gs
  induction gs with
  | nil =>
    intro k' f' k f h
    obtain ⟨fs, hmem, _⟩ := h
    exact absurd hmem (List.not_mem_nil _)
  | cons p rest ih =>
    intro k' f' k f h
    obtain ⟨k0, fs0⟩ := p
    obtain ⟨fs, hmem, hf⟩ := h
    rcases List.mem_cons.mp hmem with heq | hrest
    · obtain ⟨hk, hfs⟩ := Prod.mk.injEq .. ▸ heq
      subst hk hfs
      by_cases hk0 : k = k'
      · subst hk0
        exact ⟨fs ++ [f'], by simp [addToGroup], List.mem_append_left _ hf⟩
      · exact ⟨fs, by simp [addToGroup, hk0], hf⟩
    · by_cases hk0 : k0 = k'
      · subst hk0
        exact ⟨fs, by simp [addToGroup]; exact Or.inr hrest, hf⟩
      · obtain ⟨fs₁, hmem₁, hf₁⟩ := ih k' f' ⟨fs, hrest, hf⟩
        exact ⟨fs₁, by simp [addToGroup, hk0]; exact Or.inr hmem₁, hf₁⟩

theorem addToGroup_mem_src : ∀ (gs : List (PyStr × List PyStr)) (k x : PyStr)
    {g : PyStr} {fs : List PyStr} {y : PyStr},
    (g, fs) ∈ addToGroup gs k x → y ∈ fs →
    (∃ fs₀, (g, fs₀) ∈ gs ∧ y ∈ fs₀) ∨ (y = x ∧ g = k) := by
  intro gs
  induction gs with
  | nil =>
    intro k x g fs y hmem hy
    simp [addToGroup] at hmem
    obtain ⟨rfl, rfl⟩ := hmem
    simp at hy
    exact Or.inr ⟨hy, rfl⟩
  | cons p rest ih =>
    intro k x g fs y hmem hy
    obtain ⟨k0, fs0⟩ := p
    by_cases hk : k0 = k
    · subst hk
      simp only [addToGroup, if_pos rfl] at hmem
      rcases List.mem_cons.mp hmem with heq | hrest
      · obtain ⟨hg, hfs⟩ := Prod.mk.injEq .. ▸ heq
        subst hg hfs
        rcases List.mem_append.mp hy with h0 | hx
        · exact Or.inl ⟨fs0, List.mem_cons_self _ _, h0⟩
        · simp at hx
          exact Or.inr ⟨hx, rfl⟩
      · exact Or.inl ⟨fs, List.mem_cons_of_mem _ hrest, hy⟩
    · simp only [addToGroup, if_neg hk] at hmem
      rcases List.mem_cons.mp hmem with heq | hrest
      · obtain ⟨hg, hfs⟩ := Prod.mk.injEq .. ▸ heq
        subst hg hfs
        exact Or.inl ⟨fs, List.mem_cons_self _ _, hy⟩
      · rcases ih k x hrest hy with ⟨fs₀, hin, hy₀⟩ | hr
        · exact Or.inl ⟨fs₀, List.mem_cons_of_mem _ hin, hy₀⟩
        · exact Or.inr hr

theorem addToGroup_ne_nil : ∀ (gs : List (PyStr × List PyStr)) (k x : PyStr),
    (∀ g fs, (g, fs) ∈ gs → fs ≠ []) →
    ∀ g fs, (g, fs) ∈ addToGroup gs k x → fs ≠ [] := by
  intro gs
  induction gs with
  | nil =>
    intro k x _ g fs hmem
    simp [addToGroup] at hmem
    obtain ⟨_, rfl⟩ := hmem
    simp
  | cons p rest ih =>
    intro k x hinv g fs hmem
    obtain ⟨k0, fs0⟩ := p
    by_cases hk : k0 = k
    · subst hk
      simp only [addToGroup, if_pos rfl] at hmem
      rcases List.mem_cons.mp hmem with heq | hrest
      · obtain ⟨_, hfs⟩ := Prod.mk.injEq .. ▸ heq
        subst hfs
        simp
      · exact hinv g fs (List.mem_cons_of_mem _ hrest)
    · simp only [addToGroup, if_neg hk] at hmem
      rcases List.mem_cons.mp hmem with heq | hrest
      · obtain ⟨_, hfs⟩ := Prod.mk.injEq .. ▸ heq
        rw [hfs]
        exact hinv k0 fs0 (List.mem_cons_self _ _)
      · exact ih k x (fun g' fs' h' => hinv g' fs' (List.mem_cons_of_mem _ h')) g fs hrest

/-!
## The resolution fold
-/

/-- One iteration of the outer loop of `match_files_to_groups`. -/
def resolveStep (rules : List Rule) (gs : List (PyStr × List PyStr)) (f : PyStr) :
    List (PyStr × List PyStr) :=
  match findLastMatch rules f with
  | none => gs
  | some r => addToGroup gs (groupIdOf r.owners) f

theorem match_files_to_groups_eq_fold (files : List PyStr) (rules : List Rule) :
    match_files_to_groups files rules = files.foldl (resolveStep rules) [] := by
  unfold match_files_to_groups resolveStep
  rfl

theorem foldl_resolve_induct (rules : List Rule) (P : List (PyStr × List PyStr) → Prop)
    (S : PyStr → Prop)
    (hstep : ∀ acc x, S x → P acc → P (resolveStep rules acc x)) :
    ∀ (l : List PyStr) (acc), (∀ y ∈ l, S y) → P acc →
      P (l.foldl (resolveStep rules) acc) := by
  intro l
  induction l with
  | nil => intro acc _ h; simpa using h
  | cons x xs ih =>
    intro acc hS h
    rw [List.foldl_cons]
    exact ih _ (fun y hy => hS y (List.mem_cons_of_mem _ hy))
      (hstep acc x (hS x (List.mem_cons_self _ _)) h)

theorem resolveStep_preserve_mem {rules : List Rule} {k f : PyStr} {acc} (x : PyStr)
    (h : ∃ fs, (k, fs) ∈ acc ∧ f ∈ fs) :
    ∃ fs, (k, fs) ∈ resolveStep rules acc x ∧ f ∈ fs := by
  unfold resolveStep
  cases findLastMatch rules x with
  | none => exact h
  | some r => exact addToGroup_preserve acc _ x h

theorem foldl_resolve_preserve_mem {rules : List Rule} {k f : PyStr} :
    ∀ (l : List PyStr) (acc), (∃ fs, (k, fs) ∈ acc ∧ f ∈ fs) →
      ∃ fs, (k, fs) ∈ l.foldl (resolveStep rules) acc ∧ f ∈ fs := by
  intro l
  induction l with
  | nil => intro acc h; simpa using h
  | cons x xs ih =>
    intro acc h
    rw [List.foldl_cons]
    exact ih _ (resolveStep_preserve_mem x h)

theorem foldl_resolve_adds {rules : List Rule} {r : Rule} {f : PyStr}
    (hr : findLastMatch rules f = some r) :
    ∀ (l : List PyStr) (acc), f ∈ l →
      ∃ fs, (groupIdOf r.owners, fs) ∈ l.foldl (resolveStep rules) acc ∧ f ∈ fs := by
  intro l
  induction l with
  | nil => intro acc h; exact absurd h (List.not_mem_nil f)
  | cons x xs ih =>
    intro acc hmem
    rw [List.foldl_cons]
    rcases List.mem_cons.mp hmem with rfl | hxs
    · apply foldl_resolve_preserve_mem
      unfold resolveStep
      rw [hr]
      exact addToGroup_mem_self acc _ f
    · exact ih _ hxs

/-- Any group entry of the output names the winning rule's group id of each
of its members. -/
theorem match_files_to_groups_key (files : List PyStr) (rules : List Rule) :
    ∀ g fs, (g, fs) ∈ match_files_to_groups files rules → ∀ y ∈ fs,
      ∃ r, findLastMatch rules y = some r ∧ g = groupIdOf r.owners := by
  rw [match_files_to_groups_eq_fold]
  have h := foldl_resolve_induct rules
    (P := fun gs => ∀ g fs, (g, fs) ∈ gs → ∀ y ∈ fs,
      ∃ r, findLastMatch rules y = some r ∧ g = groupIdOf r.owners)
    (S := fun _ => True)
    (fun acc x _ hP => by
      intro g fs hmem y hy
      unfold resolveStep at hmem
      rcases hx : findLastMatch rules x with - | r
      · rw [hx] at hmem
        exact hP g fs hmem y hy
      · rw [hx] at hmem
        rcases addToGroup_mem_src acc _ x hmem hy with ⟨fs₀, h₀, hy₀⟩ | ⟨rfl, rfl⟩
        · exact hP g fs₀ h₀ y hy₀
        · exact ⟨r, hx, rfl⟩)
    files [] (fun _ _ => trivial) (by intro g fs h; exact absurd h (List.not_mem_nil _))
  exact h

/-!
## Congruence of resolution under permutation of a rule's owner list
-/

/-- Two optional winning rules that agree up to the group id they generate. -/
def optRuleRel (o₁ o₂ : Option Rule) : Prop :=
  (o₁ = none ∧ o₂ = none) ∨
    ∃ r₁ r₂, o₁ = some r₁ ∧ o₂ = some r₂ ∧ groupIdOf r₁.owners = groupIdOf r₂.owners

theorem findLastMatch_fold_rel {f : PyStr} :
    ∀ {rules₁ rules₂ : List Rule},
      List.Forall₂ (fun r₁ r₂ => r₁.pattern = r₂.pattern ∧ r₁.owners.Perm r₂.owners)
        rules₁ rules₂ →
      ∀ acc₁ acc₂, optRuleRel acc₁ acc₂ →
        optRuleRel
          (rules₁.foldl (fun acc r => if matches_pattern r.pattern f then some r else acc) acc₁)
          (rules₂.foldl (fun acc r => if matches_pattern r.pattern f then some r else acc) acc₂) := by
  intro rules₁ rules₂ hrel
  induction hrel with
  | nil => intro acc₁ acc₂ h; exact h
  | cons hr hrest ih =>
    rename_i r₁ r₂ l₁ l₂
    intro acc₁ acc₂ h
    rw [List.foldl_cons, List.foldl_cons]
    apply ih
    have hp : matches_pattern r₁.pattern f = matches_pattern r₂.pattern f := by rw [hr.1]
    rw [hp]
    by_cases hm : matches_pattern r₂.pattern f = true
    · rw [if_pos hm, if_pos hm]
      exact Or.inr ⟨r₁, r₂, rfl, rfl, groupIdOf_perm hr.2⟩
    · rw [if_neg hm, if_neg hm]
      exact h

theorem findLastMatch_rel {f : PyStr} {rules₁ rules₂ : List Rule}
    (h : List.Forall₂ (fun r₁ r₂ => r₁.pattern = r₂.pattern ∧ r₁.owners.Perm r₂.owners)
      rules₁ rules₂) :
    optRuleRel (findLastMatch rules₁ f) (findLastMatch rules₂ f) :=
  findLastMatch_fold_rel h none none (Or.inl ⟨rfl, rfl⟩)

/-!
## Claim theorems: group resolution
-/

/-- C1.  For every rule list and every file, `match_files_to_groups` assigns
the file to the owner group of the last rule (in declared order) whose
pattern matches the file, and a file matched by no rule is absent from every
group of the returned mapping.  (Instantiating the first part at the rules
`[("*", ["a"]), ("/x/", ["b"])]` and the file `"x/y.txt"` places the file
under group `"b"`, not `"a"`; see the witness.) -/
theorem c1_last_match_wins (files : List PyStr) (rules : List Rule) (f : PyStr) :
    (∀ (pre post : List Rule) (r : Rule), rules = pre ++ r :: post → f ∈ files →
      matches_pattern r.pattern f = true →
      (∀ r' ∈ post, matches_pattern r'.pattern f = false) →
      ∃ fs, (groupIdOf r.owners, fs) ∈ match_files_to_groups files rules ∧ f ∈ fs) ∧
    ((∀ r ∈ rules, matches_pattern r.pattern f = false) →
      ∀ g fs, (g, fs) ∈ match_files_to_groups files rules → f ∉ fs) := by
  constructor
  · intro pre post r hdecomp hf hm hpost
    rw [match_files_to_groups_eq_fold]
    subst hdecomp
    exact foldl_resolve_adds (findLastMatch_last hm hpost) files [] hf
  · intro hnone g fs hmem hf
    have h0 : findLastMatch rules f = none := findLastMatch_none hnone
    obtain ⟨r, hr, -⟩ := match_files_to_groups_key files rules g fs hmem f hf
    rw [h0] at hr
    exact Option.noConfusion hr

/-- Witness for C1: on the spec's example, the file lands in group `"b"`,
whose bucket is the whole output; and a file matching no rule is in no
bucket. -/
theorem c1_last_match_wins_witness :
    (∃ fs, ((("b").toList), fs) ∈
        match_files_to_groups [(("x/y.txt").toList)]
          [⟨(("*").toList), [(("a").toList)], 0⟩, ⟨(("/x/").toList), [(("b").toList)], 1⟩] ∧
      (("x/y.txt").toList) ∈ fs) ∧
    match_files_to_groups [(("x/y.txt").toList)]
        [⟨(("*").toList), [(("a").toList)], 0⟩, ⟨(("/x/").toList), [(("b").toList)], 1⟩] =
      [((("b").toList), [(("x/y.txt").toList)])] ∧
    (∀ g fs, (g, fs) ∈ match_files_to_groups [(("zzz").toList)]
        [⟨(("/x/").toList), [(("b").toList)], 1⟩] → (("zzz").toList) ∉ fs) := by
  refine ⟨?_, by decide, ?_⟩
  · have h := (c1_last_match_wins [(("x/y.txt").toList)]
        [⟨(("*").toList), [(("a").toList)], 0⟩, ⟨(("/x/").toList), [(("b").toList)], 1⟩]
        (("x/y.txt").toList)).1
      [⟨(("*").toList), [(("a").toList)], 0⟩] [] ⟨(("/x/").toList), [(("b").toList)], 1⟩
      rfl (by decide) (by decide) (by decide)
    have e : groupIdOf [(("b").toList)] = (("b").toList) := by decide
    rw [e] at h
    exact h
  · intro g fs hmem
    exact (c1_last_match_wins [(("zzz").toList)] [⟨(("/x/").toList), [(("b").toList)], 1⟩]
      (("zzz").toList)).2 (by decide) g fs hmem

/-- C2 counterexample.  The claim asserts that
`matches("**/test_*.py", "test_x.py")` returns true; it returns false: the
translated expression `(^|/).*​/test_[^/]*\.py` demands a literal `/` before
`test_`, which a depth-zero path cannot supply. -/
theorem c2_zero_depth_counterexample :
    matches_pattern (("**/test_*.py").toList) (("test_x.py").toList) = false := by decide

/-- C2 (amended).  The pattern matcher translates a double `**` into the
any-character wildcard `.*`, which crosses path separators: the pattern
`**/test_*.py` matches the nested `a/b/test_x.py`.  It does not match the
depth-zero `test_x.py`, because the literal separator following `**` in the
pattern must still be present in the path. -/
theorem c2_double_wildcard_amended :
    matches_pattern (("**/test_*.py").toList) (("a/b/test_x.py").toList) = true ∧
    matches_pattern (("**/test_*.py").toList) (("test_x.py").toList) = false := by decide

/-- C9.  The group identifier of a winning rule is its owner list sorted and
joined, so it is invariant under permutation of the owners on the rule line:
resolving any file list against two rule lists that agree except for the
order of each rule's owners produces identical mappings. -/
theorem c9_group_id_order_invariant (files : List PyStr) (rules₁ rules₂ : List Rule)
    (h : List.Forall₂ (fun r₁ r₂ => r₁.pattern = r₂.pattern ∧ r₁.owners.Perm r₂.owners)
      rules₁ rules₂) :
    match_files_to_groups files rules₁ = match_files_to_groups files rules₂ := by
  rw [match_files_to_groups_eq_fold, match_files_to_groups_eq_fold]
  have step : ∀ acc x, resolveStep rules₁ acc x = resolveStep rules₂ acc x := by
    intro acc x
    unfold resolveStep
    rcases findLastMatch_rel (f := x) h with ⟨h₁, h₂⟩ | ⟨r₁, r₂, h₁, h₂, hgid⟩
    · rw [h₁, h₂]
    · rw [h₁, h₂]
      show addToGroup acc (groupIdOf r₁.owners) x = addToGroup acc (groupIdOf r₂.owners) x
      rw [hgid]
  have : ∀ (l : List PyStr) (acc),
      l.foldl (resolveStep rules₁) acc = l.foldl (resolveStep rules₂) acc := by
    intro l
    induction l with
    | nil => intro acc; rfl
    | cons x xs ih =>
      intro acc
      rw [List.foldl_cons, List.foldl_cons, step, ih]
  exact this files []

/-- Witness for C9: two one-rule lists whose owner lists are reverses of
each other resolve a file identically. -/
theorem c9_group_id_order_invariant_witness :
    match_files_to_groups [(("f").toList)]
        [⟨(("*").toList), [(("b").toList), (("a").toList)], 0⟩] =
      match_files_to_groups [(("f").toList)]
        [⟨(("*").toList), [(("a").toList), (("b").toList)], 0⟩] :=
  c9_group_id_order_invariant [(("f").toList)] _ _
    (List.forall₂_cons.mpr ⟨⟨rfl, by decide⟩, List.Forall₂.nil⟩)

/-- C10.  The mapping returned by `match_files_to_groups` is a partition of
the matched files: every bucket is non-empty and holds only input files, and
no file lies in buckets of two distinct group ids. -/
theorem c10_partition (files : List PyStr) (rules : List Rule) :
    (∀ g fs, (g, fs) ∈ match_files_to_groups files rules →
      fs ≠ [] ∧ ∀ y ∈ fs, y ∈ files) ∧
    (∀ f g₁ fs₁ g₂ fs₂, (g₁, fs₁) ∈ match_files_to_groups files rules →
      (g₂, fs₂) ∈ match_files_to_groups files rules → f ∈ fs₁ → f ∈ fs₂ → g₁ = g₂) := by
  constructor
  · intro g fs hmem
    constructor
    · revert hmem
      rw [match_files_to_groups_eq_fold]
      revert g fs
      exact foldl_resolve_induct rules
        (P := fun gs => ∀ g fs, (g, fs) ∈ gs → fs ≠ [])
        (S := fun _ => True)
        (fun acc x _ hP => by
          intro g fs hmem
          unfold resolveStep at hmem
          rcases hx : findLastMatch rules x with - | r
          · rw [hx] at hmem; exact hP g fs hmem
          · rw [hx] at hmem
            exact addToGroup_ne_nil acc _ x hP g fs hmem)
        files [] (fun _ _ => trivial)
        (by intro g fs h; exact absurd h (List.not_mem_nil _))
    · revert hmem
      rw [match_files_to_groups_eq_fold]
      revert g fs
      exact foldl_resolve_induct rules
        (P := fun gs => ∀ g fs, (g, fs) ∈ gs → ∀ y ∈ fs, y ∈ files)
        (S := fun x => x ∈ files)
        (fun acc x hS hP => by
          intro g fs hmem y hy
          unfold resolveStep at hmem
          rcases hx : findLastMatch rules x with - | r
          · rw [hx] at hmem; exact hP g fs hmem y hy
          · rw [hx] at hmem
            rcases addToGroup_mem_src acc _ x hmem hy with ⟨fs₀, h₀, hy₀⟩ | ⟨rfl, -⟩
            · exact hP g fs₀ h₀ y hy₀
            · exact hS)
        files [] (fun _ h => h)
        (by intro g fs h; exact absurd h (List.not_mem_nil _))
  · intro f g₁ fs₁ g₂ fs₂ h₁ h₂ hf₁ hf₂
    obtain ⟨r₁, hr₁, hg₁⟩ := match_files_to_groups_key files rules g₁ fs₁ h₁ f hf₁
    obtain ⟨r₂, hr₂, hg₂⟩ := match_files_to_groups_key files rules g₂ fs₂ h₂ f hf₂
    rw [hr₁] at hr₂
    obtain rfl := Option.some.injEq .. ▸ hr₂
    rw [hg₁, hg₂]

/-- Witness for C10: on the example resolution the single bucket is
non-empty, holds only the input file, and key-uniqueness applied to it is
reflexive. -/
theorem c10_partition_witness :
    ([(("x/y.txt").toList)] ≠ ([] : List PyStr)) ∧
    ((("x/y.txt").toList) ∈ [(("x/y.txt").toList)]) ∧
    ((("b").toList) : PyStr) = (("b").toList) := by
  have h := (c10_partition [(("x/y.txt").toList)]
      [⟨(("*").toList), [(("a").toList)], 0⟩, ⟨(("/x/").toList), [(("b").toList)], 1⟩]).1
    (("b").toList) [(("x/y.txt").toList)] (by decide)
  have h2 := (c10_partition [(("x/y.txt").toList)]
      [⟨(("*").toList), [(("a").toList)], 0⟩, ⟨(("/x/").toList), [(("b").toList)], 1⟩]).2
    (("x/y.txt").toList) (("b").toList) [(("x/y.txt").toList)] (("b").toList)
    [(("x/y.txt").toList)] (by decide) (by decide) (by decide) (by decide)
  exact ⟨h.1, h.2 _ (by decide), h2⟩

/-!
## Data model: change records, dictionaries, guarded division

`ChangeRecord`s (the dicts built by `_extract_codeowners_features`) carry the
fields the training pipeline reads.  Python dicts keyed by strings are
association lists in insertion order (`pyGet` / `pySet`); Python sets are
insertion-ordered duplicate-free lists (CPython's set iteration order is
unspecified, so the embedding fixes one; every property proved below is
independent of that order).  `created_at` is carried pre-parsed as the
(hour, weekday, month) triple the temporal features read.
-/

/-- The parts of a `created_at` timestamp the feature engineering uses. -/
structure DateParts where
  hour : Nat
  weekday : Nat
  month : Nat
deriving DecidableEq

/-- The `file_groups` mapping produced by `match_files_to_groups`. -/
abbrev FileGroups := List (PyStr × List PyStr)

/-- A collected PR record (the dict built by `_extract_codeowners_features`). -/
structure PRData where
  pr_number : Nat
  files : List PyStr
  file_groups : FileGroups
  approvers : List PyStr
  author : PyStr
  additions : Nat
  deletions : Nat
  title : PyStr
  created_at : Option DateParts
deriving DecidableEq

/-- Python `d.get(k)` / `d[k]` on a string-keyed dict. -/
def pyGet {α : Type} : List (PyStr × α) → PyStr → Option α
  | [], _ => none
  | (k', v) :: rest, k => if k' = k then some v else pyGet rest k

/-- Python `d[k] = v` on a string-keyed dict: replace in place, else append. -/
def pySet {α : Type} : List (PyStr × α) → PyStr → α → List (PyStr × α)
  | [], k, v => [(k, v)]
  | (k', v') :: rest, k, v =>
    if k' = k then (k, v) :: rest else (k', v') :: pySet rest k v

/-- Python `group_id in pr_data['file_groups']`. -/
def hasGroup (fgs : FileGroups) (gid : PyStr) : Bool := (pyGet fgs gid).isSome

/-- Python's true division `a / b` on integer counts: raises
`ZeroDivisionError` (here: `none`) when the denominator is zero. -/
def pyDivN (a b : Nat) : Option ℚ := if b = 0 then none else some ((a : ℚ) / (b : ℚ))

/-- Python `s.split(sep)` for a one-character separator. -/
def pySplitChar (sep : Char) : PyStr → List PyStr
  | [] => [[]]
  | c :: cs =>
    if c = sep then [] :: pySplitChar sep cs
    else
      match pySplitChar sep cs with
      | [] => [[c]]
      | w :: ws => (c :: w) :: ws

/-- Python `sep.join(parts)` for a one-character separator. -/
def pyJoinChar (sep : Char) : List PyStr → PyStr
  | [] => []
  | [x] => x
  | x :: xs => x ++ sep :: pyJoinChar sep xs

/-- Python `needle in hay` on strings (substring containment). -/
def containsSub (needle hay : PyStr) : Bool :=
  hay.tails.any (fun t => needle.isPrefixOf t)

/-- Python `s.strip()` (remove surrounding whitespace). -/
def pyStrip (s : PyStr) : PyStr :=
  ((s.dropWhile (fun c => c.isWhitespace)).reverse.dropWhile (fun c => c.isWhitespace)).reverse

/-- Python `s.lstrip('@')`. -/
def lstripAt (s : PyStr) : PyStr := s.dropWhile (fun c => c = '@')

/-!
## StatsStore: per-developer historical statistics
-/

/-- The five-entry stats dict `_calculate_developer_group_expertise` returns. -/
structure GroupStats where
  dev_group_approval_count : Nat
  dev_group_appearance_count : Nat
  dev_group_approval_rate : ℚ
  dev_group_file_experience : Nat
  dev_group_experience_score : ℚ
deriving DecidableEq

/-- One iteration of the history loop of
`_calculate_developer_group_expertise`: the accumulator is
(approvals, appearances, similar file count). -/
def expertiseStep (developer gid : PyStr) (acc : Nat × Nat × Nat) (pr : PRData) :
    Nat × Nat × Nat :=
  if hasGroup pr.file_groups gid then
    (acc.1 + (if developer ∈ pr.approvers then 1 else 0),
     acc.2.1 + 1,
     acc.2.2 + ((pyGet pr.file_groups gid).getD []).length)
  else acc

/-- `CodeownersMLPredictor._calculate_developer_group_expertise`.  The
approval rate is the guarded `approvals / appearances if appearances > 0
else 0`; the experience score divides by the constant 10. -/
def calculate_developer_group_expertise (developer gid : PyStr)
    (historical_data : List PRData) : Option GroupStats :=
  let c := historical_data.foldl (expertiseStep developer gid) (0, 0, 0)
  match (if 0 < c.2.1 then pyDivN c.1 c.2.1 else some 0) with
  | none => none
  | some rate =>
    some { dev_group_approval_count := c.1
           dev_group_appearance_count := c.2.1
           dev_group_approval_rate := rate
           dev_group_file_experience := c.2.2
           dev_group_experience_score := ((c.1 : ℚ) * 2 + (c.2.2 : ℚ)) / 10 }

/-- Python `any(team_name in group_id.split('_') for group_id in file_groups)`
(the `team_involved` test appearing throughout the team pipeline). -/
def teamInvolved (team : PyStr) (fgs : FileGroups) : Bool :=
  fgs.any (fun p => team ∈ pySplitChar '_' p.1)

/-- The three-entry stats dict stored per member by
`_store_team_member_stats`. -/
structure TeamStats where
  total_approvals : Nat
  team_appearances : Nat
  team_approval_rate : ℚ
deriving DecidableEq

/-- The per-member counting loop of `_store_team_member_stats`:
(approvals, appearances). -/
def teamMemberCounts (member team : PyStr) (raw : List PRData) : Nat × Nat :=
  raw.foldl
    (fun acc pr =>
      if teamInvolved team pr.file_groups then
        (acc.1 + (if member ∈ pr.approvers then 1 else 0), acc.2 + 1)
      else acc)
    (0, 0)

/-- The stats entry `_store_team_member_stats` computes for one member. -/
def team_member_stat (member team : PyStr) (raw : List PRData) : Option TeamStats :=
  let c := teamMemberCounts member team raw
  match (if 0 < c.2 then pyDivN c.1 c.2 else some 0) with
  | none => none
  | some rate => some { total_approvals := c.1, team_appearances := c.2,
                        team_approval_rate := rate }

/-- `CodeownersMLPredictor._store_team_member_stats`: the stats dict for a
whole team. -/
def storeTeamMemberStats (team : PyStr) (raw : List PRData) (team_members : List PyStr) :
    Option (List (PyStr × TeamStats)) :=
  team_members.foldl
    (fun acc member =>
      match acc with
      | none => none
      | some l =>
        match team_member_stat member team raw with
        | none => none
        | some s => some (pySet l member s))
    (some [])

/-- `CodeownersMLPredictor._store_group_developer_stats`: the stats dict for
one group (its keys are the owners recovered by `group_id.split('_')`). -/
def storeGroupDevStats (gid : PyStr) (raw : List PRData) :
    Option (List (PyStr × GroupStats)) :=
  (pySplitChar '_' gid).foldl
    (fun acc developer =>
      match acc with
      | none => none
      | some l =>
        match calculate_developer_group_expertise developer gid raw with
        | none => none
        | some s => some (pySet l developer s))
    (some [])

/-!
## FeatureEngineer

Feature dictionaries are association lists in insertion order; `update` with
disjoint key sets is list append.  Boolean features are carried as 0/1, as
they are once a pandas frame coerces them.
-/

/-- A feature dictionary: insertion-ordered (name, numeric value) pairs. -/
abbrev Features := List (PyStr × ℚ)

/-- The values of a feature dict, in key order (`list(sample.values())`). -/
def featureVals (fv : Features) : List ℚ := fv.map Prod.snd

/-- Python bool as a number. -/
def boolQ (b : Bool) : ℚ := if b then 1 else 0

/-- The file-pattern feature block shared by training and prediction
(only emitted when the group's file list is non-empty; the guarded
`max(...)` is the maximum over a non-empty list of positive depths). -/
def filePatternFeatures (group_files : List PyStr) : Features :=
  let extensions := (group_files.filter (fun f => '.' ∈ f)).map
    (fun f => ((pySplitChar '.' f).getLastD []).map Char.toLower)
  let directories := group_files.map (fun f => pyJoinChar '/' ((pySplitChar '/' f).dropLast))
  [((("group_unique_extensions").toList), (extensions.dedup.length : ℚ)),
   ((("group_unique_directories").toList), (directories.dedup.length : ℚ)),
   ((("group_max_depth").toList),
     (((group_files.map (fun f => (pySplitChar '/' f).length)).foldl max 0 : Nat) : ℚ)),
   ((("group_has_tests").toList),
     boolQ (group_files.any (fun f => containsSub (("test").toList) (f.map Char.toLower)))),
   ((("group_has_docs").toList),
     boolQ (group_files.any (fun f => ((".md").toList).isSuffixOf f))),
   ((("group_has_config").toList),
     boolQ (group_files.any (fun f => ((".json").toList).isSuffixOf f ∨
       ((".yaml").toList).isSuffixOf f ∨ ((".yml").toList).isSuffixOf f)))]

/-- The temporal feature block (emitted when `created_at` is present). -/
def temporalFeatures (d : DateParts) : Features :=
  [((("created_hour").toList), (d.hour : ℚ)),
   ((("created_day_of_week").toList), (d.weekday : ℚ)),
   ((("created_month").toList), (d.month : ℚ))]

/-- `CodeownersMLPredictor.engineer_group_features` (training-time): basic
change-size features, then the developer's historical group stats computed
from `all_training_data`, then conditional file-pattern and temporal
blocks. -/
def engineer_group_features (pr_data : PRData) (gid developer : PyStr)
    (all_training_data : List PRData) : Option Features :=
  let group_files := (pyGet pr_data.file_groups gid).getD []
  let all_files := pr_data.files
  match (if all_files.length ≠ 0 then pyDivN group_files.length all_files.length
         else some 0) with
  | none => none
  | some ratio =>
    match calculate_developer_group_expertise developer gid all_training_data with
    | none => none
    | some st =>
      some (
        ((("group_file_count").toList), (group_files.length : ℚ)) ::
        ((("group_file_ratio").toList), ratio) ::
        ((("total_file_count").toList), (all_files.length : ℚ)) ::
        ((("pr_size_additions").toList), (pr_data.additions : ℚ)) ::
        ((("pr_size_deletions").toList), (pr_data.deletions : ℚ)) ::
        ((("pr_total_changes").toList), ((pr_data.additions + pr_data.deletions : Nat) : ℚ)) ::
        ((("pr_title_length").toList), (pr_data.title.length : ℚ)) ::
        ((("dev_group_approval_count").toList), (st.dev_group_approval_count : ℚ)) ::
        ((("dev_group_appearance_count").toList), (st.dev_group_appearance_count : ℚ)) ::
        ((("dev_group_approval_rate").toList), st.dev_group_approval_rate) ::
        ((("dev_group_file_experience").toList), (st.dev_group_file_experience : ℚ)) ::
        ((("dev_group_experience_score").toList), st.dev_group_experience_score) ::
        ((if group_files.length ≠ 0 then filePatternFeatures group_files else []) ++
          (match pr_data.created_at with
           | some d => temporalFeatures d
           | none => [])))

/-- The default stats block used at prediction time for a developer with no
stored statistics. -/
def defaultGroupStatsFeatures : Features :=
  [((("dev_group_approval_count").toList), 0),
   ((("dev_group_appearance_count").toList), 0),
   ((("dev_group_approval_rate").toList), 0),
   ((("dev_group_file_experience").toList), 0),
   ((("dev_group_experience_score").toList), 0)]

/-- `CodeownersMLPredictor.engineer_group_features_for_prediction`: same
shape as training features, but the stats block comes from the *persisted*
`group_developer_stats` snapshot (or zeros when absent). -/
def engineer_group_features_for_prediction
    (group_developer_stats : List (PyStr × List (PyStr × GroupStats)))
    (pr_data : PRData) (gid developer : PyStr) : Option Features :=
  let group_files := (pyGet pr_data.file_groups gid).getD []
  let all_files := pr_data.files
  match (if all_files.length ≠ 0 then pyDivN group_files.length all_files.length
         else some 0) with
  | none => none
  | some ratio =>
    let statsBlock :=
      match (pyGet group_developer_stats gid).bind (fun m => pyGet m developer) with
      | some st =>
        [((("dev_group_approval_count").toList), (st.dev_group_approval_count : ℚ)),
         ((("dev_group_appearance_count").toList), (st.dev_group_appearance_count : ℚ)),
         ((("dev_group_approval_rate").toList), st.dev_group_approval_rate),
         ((("dev_group_file_experience").toList), (st.dev_group_file_experience : ℚ)),
         ((("dev_group_experience_score").toList), st.dev_group_experience_score)]
      | none => defaultGroupStatsFeatures
    some (
      ((("group_file_count").toList), (group_files.length : ℚ)) ::
      ((("group_file_ratio").toList), ratio) ::
      ((("total_file_count").toList), (all_files.length : ℚ)) ::
      ((("pr_size_additions").toList), (pr_data.additions : ℚ)) ::
      ((("pr_size_deletions").toList), (pr_data.deletions : ℚ)) ::
      ((("pr_total_changes").toList), ((pr_data.additions + pr_data.deletions : Nat) : ℚ)) ::
      ((("pr_title_length").toList), (pr_data.title.length : ℚ)) ::
      (statsBlock ++
        (if group_files.length ≠ 0 then filePatternFeatures group_files else []) ++
        (match pr_data.created_at with
         | some d => temporalFeatures d
         | none => [])))

/-- `CodeownersMLPredictor.engineer_team_features` (training-time): change
size, the member's approval behaviour over the full history, and the size of
the *currently stored* stats dict for the team (which, during a training
run, is whatever an earlier team or run left there). -/
def engineer_team_features (pr_data : PRData) (team member : PyStr)
    (all_training_data : List PRData)
    (team_member_stats : List (PyStr × List (PyStr × TeamStats))) : Option Features :=
  let c := all_training_data.foldl
    (fun acc h =>
      let acc' := (acc.1, acc.2.1, acc.2.2 + 1)
      if teamInvolved team h.file_groups then
        (acc'.1 + (if member ∈ h.approvers then 1 else 0), acc'.2.1 + 1, acc'.2.2)
      else acc')
    (0, 0, 0)
  match (if 0 < c.2.1 then pyDivN c.1 c.2.1 else some 0) with
  | none => none
  | some rate =>
    match (if 0 < c.2.2 then pyDivN c.1 c.2.2 else some 0) with
    | none => none
    | some freq =>
      some
        [((("pr_additions").toList), (pr_data.additions : ℚ)),
         ((("pr_deletions").toList), (pr_data.deletions : ℚ)),
         ((("pr_total_changes").toList), ((pr_data.additions + pr_data.deletions : Nat) : ℚ)),
         ((("pr_file_count").toList), (pr_data.files.length : ℚ)),
         ((("member_total_approvals").toList), (c.1 : ℚ)),
         ((("member_pr_appearances").toList), (c.2.1 : ℚ)),
         ((("member_approval_rate").toList), rate),
         ((("member_approval_frequency").toList), freq),
         ((("team_member_count").toList),
           (((pyGet team_member_stats team).getD []).length : ℚ))]

/-- `CodeownersMLPredictor.engineer_team_features_for_prediction`: the
stored per-member stats replace the historical scan (the stored approval
rate also stands in for the frequency). -/
def engineer_team_features_for_prediction
    (team_member_stats : List (PyStr × List (PyStr × TeamStats)))
    (pr_data : PRData) (team member : PyStr) : Features :=
  let statsBlock :=
    match (pyGet team_member_stats team).bind (fun m => pyGet m member) with
    | some st =>
      [((("member_total_approvals").toList), (st.total_approvals : ℚ)),
       ((("member_pr_appearances").toList), (st.team_appearances : ℚ)),
       ((("member_approval_rate").toList), st.team_approval_rate),
       ((("member_approval_frequency").toList), st.team_approval_rate)]
    | none =>
      [((("member_total_approvals").toList), 0),
       ((("member_pr_appearances").toList), 0),
       ((("member_approval_rate").toList), 0),
       ((("member_approval_frequency").toList), 0)]
  ((("pr_additions").toList), (pr_data.additions : ℚ)) ::
  ((("pr_deletions").toList), (pr_data.deletions : ℚ)) ::
  ((("pr_total_changes").toList), ((pr_data.additions + pr_data.deletions : Nat) : ℚ)) ::
  ((("pr_file_count").toList), (pr_data.files.length : ℚ)) ::
  (statsBlock ++
    [((("team_member_count").toList),
      (((pyGet team_member_stats team).getD []).length : ℚ))])

/-!
## Characterisation of the stored statistics (C5, C8)
-/

theorem expertise_foldl_fst (developer gid : PyStr) :
    ∀ (l : List PRData) (a : Nat × Nat × Nat),
      (l.foldl (expertiseStep developer gid) a).1 =
        a.1 + l.countP
          (fun pr => hasGroup pr.file_groups gid && decide (developer ∈ pr.approvers)) := by
  intro l
  induction l with
  | nil => intro a; simp
  | cons pr rest ih =>
    intro a
    rw [List.foldl_cons, ih, List.countP_cons]
    unfold expertiseStep
    by_cases h1 : hasGroup pr.file_groups gid
    · by_cases h2 : developer ∈ pr.approvers
      · simp [h1, h2]; omega
      · simp [h1, h2]
    · simp [h1]

theorem expertise_foldl_snd (developer gid : PyStr) :
    ∀ (l : List PRData) (a : Nat × Nat × Nat),
      (l.foldl (expertiseStep developer gid) a).2.1 =
        a.2.1 + l.countP (fun pr => hasGroup pr.file_groups gid) := by
  intro l
  induction l with
  | nil => intro a; simp
  | cons pr rest ih =>
    intro a
    rw [List.foldl_cons, ih, List.countP_cons]
    unfold expertiseStep
    by_cases h1 : hasGroup pr.file_groups gid
    · simp [h1]; omega
    · simp [h1]

/-- `_calculate_developer_group_expertise` always succeeds; its counts are
the historical tallies, and its rate is the guarded quotient. -/
theorem calc_expertise_spec (developer gid : PyStr) (data : List PRData) :
    ∃ s, calculate_developer_group_expertise developer gid data = some s ∧
      s.dev_group_approval_count =
        data.countP
          (fun pr => hasGroup pr.file_groups gid && decide (developer ∈ pr.approvers)) ∧
      s.dev_group_appearance_count = data.countP (fun pr => hasGroup pr.file_groups gid) ∧
      (s.dev_group_appearance_count = 0 → s.dev_group_approval_rate = 0) ∧
      (0 < s.dev_group_appearance_count →
        s.dev_group_approval_rate =
          (s.dev_group_approval_count : ℚ) / (s.dev_group_appearance_count : ℚ)) := by
  unfold calculate_developer_group_expertise
  dsimp only
  have h1 := expertise_foldl_fst developer gid data (0, 0, 0)
  have h2 := expertise_foldl_snd developer gid data (0, 0, 0)
  by_cases hpos : 0 < (data.foldl (expertiseStep developer gid) (0, 0, 0)).2.1
  · rw [if_pos hpos]
    unfold pyDivN
    rw [if_neg (Nat.pos_iff_ne_zero.mp hpos)]
    refine ⟨_, rfl, by simpa using h1, by simpa using h2, ?_, ?_⟩
    · intro h
      dsimp only at h
      omega
    · intro _
      rfl
  · rw [if_neg hpos]
    refine ⟨_, rfl, by simpa using h1, by simpa using h2, fun _ => rfl, ?_⟩
    intro h
    exact absurd h hpos

theorem team_counts_fst (member team : PyStr) :
    ∀ (l : List PRData) (a : Nat × Nat),
      (l.foldl
        (fun acc pr =>
          if teamInvolved team pr.file_groups then
            (acc.1 + (if member ∈ pr.approvers then 1 else 0), acc.2 + 1)
          else acc) a).1 =
      a.1 + l.countP
        (fun pr => teamInvolved team pr.file_groups && decide (member ∈ pr.approvers)) := by
  intro l
  induction l with
  | nil => intro a; simp
  | cons pr rest ih =>
    intro a
    rw [List.foldl_cons, ih, List.countP_cons]
    by_cases h1 : teamInvolved team pr.file_groups
    · by_cases h2 : member ∈ pr.approvers
      · simp [h1, h2]; omega
      · simp [h1, h2]
    · simp [h1]

theorem team_counts_snd (member team : PyStr) :
    ∀ (l : List PRData) (a : Nat × Nat),
      (l.foldl
        (fun acc pr =>
          if teamInvolved team pr.file_groups then
            (acc.1 + (if member ∈ pr.approvers then 1 else 0), acc.2 + 1)
          else acc) a).2 =
      a.2 + l.countP (fun pr => teamInvolved team pr.file_groups) := by
  intro l
  induction l with
  | nil => intro a; simp
  | cons pr rest ih =>
    intro a
    rw [List.foldl_cons, ih, List.countP_cons]
    by_cases h1 : teamInvolved team pr.file_groups
    · simp [h1]; omega
    · simp [h1]

/-- `_store_team_member_stats` always succeeds per member, with the guarded
rate. -/
theorem team_stat_spec (member team : PyStr) (raw : List PRData) :
    ∃ t, team_member_stat member team raw = some t ∧
      (t.team_appearances = 0 → t.team_approval_rate = 0) ∧
      (0 < t.team_appearances →
        t.team_approval_rate = (t.total_approvals : ℚ) / (t.team_appearances : ℚ)) := by
  unfold team_member_stat teamMemberCounts
  dsimp only
  by_cases hpos : 0 < (raw.foldl
      (fun acc pr =>
        if teamInvolved team pr.file_groups then
          (acc.1 + (if member ∈ pr.approvers then 1 else 0), acc.2 + 1)
        else acc) ((0, 0) : Nat × Nat)).2
  · rw [if_pos hpos]
    unfold pyDivN
    rw [if_neg (Nat.pos_iff_ne_zero.mp hpos)]
    refine ⟨_, rfl, ?_, fun _ => rfl⟩
    intro h
    dsimp only at h
    omega
  · rw [if_neg hpos]
    refine ⟨_, rfl, fun _ => rfl, ?_⟩
    intro h
    exact absurd h hpos

/-- C8.  For every developer and group (and every member and team), the
stored statistics always compute: the approval rate is
`approval_count / appearance_count` when the appearance count is positive
and 0 when it is 0; the guards mean Python's division never sees a zero
denominator (`none` is never produced). -/
theorem c8_zero_division_safety (developer gid member team : PyStr)
    (historical raw : List PRData) :
    (∃ s, calculate_developer_group_expertise developer gid historical = some s ∧
      (s.dev_group_appearance_count = 0 → s.dev_group_approval_rate = 0) ∧
      (0 < s.dev_group_appearance_count →
        s.dev_group_approval_rate =
          (s.dev_group_approval_count : ℚ) / (s.dev_group_appearance_count : ℚ))) ∧
    (∃ t, team_member_stat member team raw = some t ∧
      (t.team_appearances = 0 → t.team_approval_rate = 0) ∧
      (0 < t.team_appearances →
        t.team_approval_rate = (t.total_approvals : ℚ) / (t.team_appearances : ℚ))) := by
  constructor
  · obtain ⟨s, hs, -, -, h0, hp⟩ := calc_expertise_spec developer gid historical
    exact ⟨s, hs, h0, hp⟩
  · exact team_stat_spec member team raw

/-- Witness for C8: on an empty history both appearance counts are 0 and
both rates are 0, with no division failure. -/
theorem c8_zero_division_safety_witness :
    (calculate_developer_group_expertise (("d").toList) (("g").toList) []).map
        (fun s => s.dev_group_approval_rate) = some 0 ∧
    (team_member_stat (("m").toList) (("t").toList) []).map
        (fun t => t.team_approval_rate) = some 0 := by
  obtain ⟨⟨s, hs, h0, -⟩, ⟨t, ht, h0t, -⟩⟩ :=
    c8_zero_division_safety (("d").toList) (("g").toList) (("m").toList) (("t").toList) [] []
  have es : (calculate_developer_group_expertise (("d").toList) (("g").toList) []).map
      (fun s => s.dev_group_appearance_count) = some 0 := rfl
  have et : (team_member_stat (("m").toList) (("t").toList) []).map
      (fun t => t.team_appearances) = some 0 := rfl
  rw [hs] at es ⊢
  rw [ht] at et ⊢
  simp only [Option.map_some'] at es et ⊢
  rw [h0 (Option.some.injEq .. ▸ es), h0t (Option.some.injEq .. ▸ et)]
  exact ⟨rfl, rfl⟩

/-!
## C5: training-time features and the current change

`prepare_group_training_data` calls `engineer_group_features(pr, gid, dev,
raw_data)` with the *full* collected history `raw_data` — including the very
change the sample is built from — and
`_calculate_developer_group_expertise` tallies over everything it is given.
-/

/-- The concrete change record used for C5. -/
def c5pr : PRData :=
  { pr_number := 1
    files := [(("a.py").toList)]
    file_groups := [((("d").toList), [(("a.py").toList)])]
    approvers := [(("d").toList)]
    author := (("d").toList)
    additions := 1
    deletions := 1
    title := (("t").toList)
    created_at := none }

/-- C5 counterexample.  With history `[c5pr]` in which developer `d`
approved the only change, the training-time feature vector for the sample
built *from that same change* carries `dev_group_approval_count = 1` —
whereas the claim demands the sample's stats be computed from all *other*
records, i.e. from the empty remainder, which gives 0. -/
theorem c5_leakage_counterexample :
    (engineer_group_features c5pr (("d").toList) (("d").toList) [c5pr]).map
        (fun fv => pyGet fv (("dev_group_approval_count").toList)) =
      some (some ((1 : Nat) : ℚ)) ∧
    (calculate_developer_group_expertise (("d").toList) (("d").toList)
        ([c5pr].erase c5pr)).map (fun s => s.dev_group_approval_count) = some 0 := by
  exact ⟨rfl, rfl⟩

/-- C5 (amended).  The per-developer per-group statistics in a training
sample's feature vector are computed from the *entire* historical list
passed in, including the change the sample is built from: when the
developer approved that change, both the approval count and the appearance
count strictly exceed (by exactly one) those computed with the change
removed, so the current change's own label contributes to its features. -/
theorem c5_stats_include_current (data : List PRData) (pr : PRData)
    (gid developer : PyStr) (hpr : pr ∈ data)
    (hg : hasGroup pr.file_groups gid = true) (hd : developer ∈ pr.approvers) :
    ∀ fv, engineer_group_features pr gid developer data = some fv →
      ∃ s s', calculate_developer_group_expertise developer gid data = some s ∧
        calculate_developer_group_expertise developer gid (data.erase pr) = some s' ∧
        pyGet fv (("dev_group_approval_count").toList) =
          some ((s.dev_group_approval_count : ℚ)) ∧
        pyGet fv (("dev_group_appearance_count").toList) =
          some ((s.dev_group_appearance_count : ℚ)) ∧
        s.dev_group_approval_count = s'.dev_group_approval_count + 1 ∧
        s.dev_group_appearance_count = s'.dev_group_appearance_count + 1 := by
  intro fv hfv
  obtain ⟨s, hs, hc1, hc2, -, -⟩ := calc_expertise_spec developer gid data
  obtain ⟨s', hs', hc1', hc2', -, -⟩ := calc_expertise_spec developer gid (data.erase pr)
  refine ⟨s, s', hs, hs', ?_, ?_, ?_, ?_⟩
  · unfold engineer_group_features at hfv
    dsimp only at hfv
    rcases hr : (if pr.files.length ≠ 0 then
        pyDivN ((pyGet pr.file_groups gid).getD []).length pr.files.length
      else some 0) with - | ratio
    · rw [hr] at hfv
      exact Option.noConfusion hfv
    · rw [hr, hs] at hfv
      obtain rfl := (Option.some.injEq .. ▸ hfv)
      simp [pyGet]
  · unfold engineer_group_features at hfv
    dsimp only at hfv
    rcases hr : (if pr.files.length ≠ 0 then
        pyDivN ((pyGet pr.file_groups gid).getD []).length pr.files.length
      else some 0) with - | ratio
    · rw [hr] at hfv
      exact Option.noConfusion hfv
    · rw [hr, hs] at hfv
      obtain rfl := (Option.some.injEq .. ▸ hfv)
      simp [pyGet]
  · rw [hc1, hc1',
      (List.perm_cons_erase hpr).countP_eq
        (fun q => hasGroup q.file_groups gid && decide (developer ∈ q.approvers)),
      List.countP_cons]
    simp [hg, hd]
  · rw [hc2, hc2',
      (List.perm_cons_erase hpr).countP_eq (fun q => hasGroup q.file_groups gid),
      List.countP_cons]
    simp [hg]

/-- Witness for C5 (amended): instantiated on the one-record history, the
stored approval count for the sample is 1 = 0 + 1. -/
theorem c5_stats_include_current_witness :
    (calculate_developer_group_expertise (("d").toList) (("d").toList) [c5pr]).map
        (fun s => s.dev_group_approval_count) = some 1 := by
  obtain ⟨s, s', hs, hs', -, -, hrel, -⟩ :=
    c5_stats_include_current [c5pr] c5pr (("d").toList) (("d").toList)
      (by decide) (by decide) (by decide) _ rfl
  have e : (calculate_developer_group_expertise (("d").toList) (("d").toList)
      ([c5pr].erase c5pr)).map (fun x => x.dev_group_approval_count) = some 0 := rfl
  rw [hs'] at e
  simp only [Option.map_some'] at e
  rw [hs]
  simp only [Option.map_some', hrel, Option.some.injEq .. ▸ e]

/-!
## TrainingOrchestrator: dataset construction

Python set iteration (`_get_all_group_ids`, `set(approvers)`, the team and
member sets) has unspecified order; the embedding uses first-appearance
order.  Every property proved below (membership of a group in the trained
set, sample counts, thresholds) is independent of that order.
-/

/-- Append one labeled sample, failing if feature engineering failed. -/
def appendSample (acc : Option (List Features × List Nat)) (fv : Option Features)
    (label : Nat) : Option (List Features × List Nat) :=
  match acc, fv with
  | some (ss, ls), some f => some (ss ++ [f], ls ++ [label])
  | _, _ => none

/-- The per-group sample/label construction of
`prepare_group_training_data`: for every record touching the group, one
positive sample per approving owner and one negative sample per
non-approving owner (owners are recovered from the group id). -/
def samplesForGroup (raw : List PRData) (gid : PyStr) :
    Option (List Features × List Nat) :=
  let group_owners := pySplitChar '_' gid
  raw.foldl
    (fun acc pr =>
      if hasGroup pr.file_groups gid then
        let acc1 := (pr.approvers.dedup).foldl
          (fun a approver =>
            if approver ∈ group_owners then
              appendSample a (engineer_group_features pr gid approver raw) 1
            else a)
          acc
        group_owners.foldl
          (fun a owner =>
            if owner ∉ pr.approvers then
              appendSample a (engineer_group_features pr gid owner raw) 0
            else a)
          acc1
      else acc)
    (some ([], []))

/-- `_get_all_group_ids`, in first-appearance order. -/
def allGroupIds (raw : List PRData) : List PyStr :=
  raw.foldl
    (fun acc pr =>
      pr.file_groups.foldl
        (fun acc2 p => if p.1 ∉ acc2 then acc2 ++ [p.1] else acc2)
        acc)
    []

/-- `pd.DataFrame(samples)`: columns in order of first appearance. -/
def dfColumns (samples : List Features) : List PyStr :=
  samples.foldl
    (fun cols s => cols ++ ((s.map Prod.fst).filter (fun k => k ∉ cols)))
    []

/-- One row of `df.fillna(0).values`. -/
def dfRow (cols : List PyStr) (s : Features) : List ℚ :=
  cols.map (fun k => (pyGet s k).getD 0)

/-- A qualifying group's training data: its id, the stored feature-name
list (`self.group_features[gid] = df.columns`), and the `(X, y)` pair. -/
structure GroupDataset where
  gid : PyStr
  cols : List PyStr
  X : List (List ℚ)
  y : List Nat
deriving DecidableEq

/-- The per-group loop of `prepare_group_training_data`: a group is kept
exactly when its samples number at least 20 with at least 3 of each class;
otherwise it is skipped and the remaining groups are still processed. -/
def prepareGroups (raw : List PRData) : List PyStr → Option (List GroupDataset)
  | [] => some []
  | gid :: rest =>
    match samplesForGroup raw gid with
    | none => none
    | some (samples, labels) =>
      match prepareGroups raw rest with
      | none => none
      | some ds =>
        if 20 ≤ samples.length ∧ 3 ≤ labels.sum ∧ 3 ≤ labels.length - labels.sum then
          some ({ gid := gid, cols := dfColumns samples,
                  X := samples.map (dfRow (dfColumns samples)), y := labels } :: ds)
        else some ds

/-- `CodeownersMLPredictor.prepare_group_training_data`. -/
def prepare_group_training_data (raw : List PRData) : Option (List GroupDataset) :=
  prepareGroups raw (allGroupIds raw)

/-- All team owners (`'/' in owner`) named by any resolved group, in
first-appearance order. -/
def allTeams (raw : List PRData) : List PyStr :=
  raw.foldl
    (fun acc pr =>
      pr.file_groups.foldl
        (fun acc2 p =>
          (pySplitChar '_' p.1).foldl
            (fun acc3 owner =>
              if ('/' ∈ owner) ∧ owner ∉ acc3 then acc3 ++ [owner] else acc3)
            acc2)
        acc)
    []

/-- Team-member discovery of `prepare_team_training_data`: individuals seen
approving any change whose resolved groups involve the team. -/
def discoverMembers (team : PyStr) (raw : List PRData) : List PyStr :=
  raw.foldl
    (fun acc pr =>
      if teamInvolved team pr.file_groups then
        pr.approvers.foldl
          (fun acc2 approver =>
            if approver ≠ [] then
              let clean := lstripAt (pyStrip approver)
              if clean ≠ [] ∧ '/' ∉ clean ∧ clean ∉ acc2 then acc2 ++ [clean] else acc2
            else acc2)
          acc
      else acc)
    []

/-- The per-team sample/label loops of `prepare_team_training_data`. -/
def teamSamples (team : PyStr) (members : List PyStr) (raw : List PRData)
    (tms : List (PyStr × List (PyStr × TeamStats))) :
    Option (List Features × List Nat) :=
  raw.foldl
    (fun acc pr =>
      match acc with
      | none => none
      | some (ss, ls) =>
        if teamInvolved team pr.file_groups then
          members.foldl
            (fun acc2 member =>
              match acc2 with
              | none => none
              | some (ss2, ls2) =>
                match engineer_team_features pr team member raw tms with
                | none => none
                | some fv =>
                  some (ss2 ++ [fv], ls2 ++ [if member ∈ pr.approvers then 1 else 0]))
            (some (ss, ls))
        else some (ss, ls))
    (some ([], []))

/-- A qualifying team's training data. -/
structure TeamDataset where
  team : PyStr
  X : List (List ℚ)
  y : List Nat
deriving DecidableEq

/-- `prepare_team_training_data`: iterates the discovered teams, skipping
teams with fewer than 2 discovered members, fewer than 20 samples, or fewer
than 3 samples of either class; for each kept team it stores the feature
names and the member stats (both of which later teams observe through
`team_member_count`) and emits the dataset.  Returns the datasets together
with the updated `team_member_stats` and `team_features`. -/
def prepareTeams (raw : List PRData) :
    List PyStr → List (PyStr × List (PyStr × TeamStats)) → List (PyStr × List PyStr) →
    Option (List TeamDataset × List (PyStr × List (PyStr × TeamStats)) ×
      List (PyStr × List PyStr))
  | [], tms, tfeats => some ([], tms, tfeats)
  | team :: rest, tms, tfeats =>
    let members := discoverMembers team raw
    if members.length < 2 then prepareTeams raw rest tms tfeats
    else
      match teamSamples team members raw tms with
      | none => none
      | some (samples, labels) =>
        if samples.length < 20 then prepareTeams raw rest tms tfeats
        else if labels.sum < 3 ∨ labels.length - labels.sum < 3 then
          prepareTeams raw rest tms tfeats
        else
          let tfeats' := pySet tfeats team ((samples.headD []).map Prod.fst)
          match storeTeamMemberStats team raw members with
          | none => none
          | some stats =>
            match prepareTeams raw rest (pySet tms team stats) tfeats' with
            | none => none
            | some (ds, tms', tfeats'') =>
              some ({ team := team, X := samples.map featureVals, y := labels } :: ds,
                tms', tfeats'')

/-!
## TrainingOrchestrator: state and the training run
-/

/-- The mutable state of a `CodeownersMLPredictor` (the unused
`group_encoders` / `team_encoders` fields are omitted: nothing ever reads
them and `save_model` does not persist them). -/
structure MLState (M S : Type) where
  group_models : List (PyStr × M)
  group_features : List (PyStr × List PyStr)
  group_scalers : List (PyStr × S)
  group_developer_stats : List (PyStr × List (PyStr × GroupStats))
  team_models : List (PyStr × M)
  team_features : List (PyStr × List PyStr)
  team_scalers : List (PyStr × S)
  team_member_stats : List (PyStr × List (PyStr × TeamStats))
  codeowners_patterns : List Rule
  is_trained : Bool
  training_date : Option PyStr
  processed_prs : List Nat
deriving DecidableEq

/-- The collection loop of `collect_codeowners_training_data`, restricted to
its pure core: walk the stream of already-extracted merged-PR records in API
order, skip records whose id is in the processed set, and stop at the PR
limit.  (The page-size cap and the three-consecutive-skipped-pages early
exit only truncate the same stream further; `candidates` stands for the
records the run actually examines.)  Returns the new records and the updated
processed set. -/
def collectLoop : List PRData → List Nat → Nat → List PRData × List Nat
  | [], processed, _ => ([], processed)
  | pr :: rest, processed, limit =>
    if limit = 0 then ([], processed)
    else if pr.pr_number ∈ processed then collectLoop rest processed limit
    else
      let r := collectLoop rest (processed ++ [pr.pr_number]) (limit - 1)
      (pr :: r.1, r.2)

/-- The summary dict `train` returns: either the early "no new PRs" shape or
the full-run shape. -/
inductive TrainResult
  | skipped (trained_groups : Nat) (total_samples : Nat) (training_date : Option PyStr)
      (group_models : List PyStr) (codeowners_rules : Nat) (message : PyStr)
  | completed (trained_groups trained_teams total_samples team_samples : Nat)
      (training_date : PyStr) (group_models team_models : List PyStr)
      (codeowners_rules pr_limit new_prs_processed : Nat)
deriving DecidableEq

/-- `CodeownersMLPredictor.train`, as a state transition.  Inputs beyond the
state: the ledger contents read by `load_training_log`, the parsed
CODEOWNERS rules the collection fetches, the candidate record stream, the PR
limit, and the current timestamp.  The classifier/scaler fitting
(`train_test_split` + `StandardScaler` + `RandomForestClassifier.fit`) is
opaque: `fitC` / `fitS` map a dataset to a fitted model / scaler.  The third
component of the result is the processed-id set written back by
`save_training_log` (`none` on the early no-op return, which writes
nothing). -/
def trainStep {M S : Type}
    (fitC : List (List ℚ) → List Nat → M) (fitS : List (List ℚ) → List Nat → S)
    (st : MLState M S) (logProcessed : List Nat) (rules : List Rule)
    (candidates : List PRData) (pr_limit : Nat) (nowIso : PyStr) :
    Option (MLState M S × TrainResult × Option (List Nat)) :=
  let st1 : MLState M S := { st with processed_prs := logProcessed,
                                     codeowners_patterns := rules }
  let col := collectLoop candidates logProcessed pr_limit
  let new_prs := col.1
  let st2 : MLState M S := { st1 with processed_prs := col.2 }
  if new_prs.isEmpty then
    some (st2,
      .skipped st2.group_models.length 0 st2.training_date
        (st2.group_models.map Prod.fst) rules.length
        (("No new PRs found - training skipped").toList),
      none)
  else
    match prepare_group_training_data new_prs with
    | none => none
    | some gds =>
      let fitted := gds.foldl
        (fun acc d =>
          match acc with
          | none => none
          | some (s, tg, ts) =>
            match storeGroupDevStats d.gid new_prs with
            | none => none
            | some stats =>
              some (({ s with
                  group_models := pySet s.group_models d.gid (fitC d.X d.y)
                  group_scalers := pySet s.group_scalers d.gid (fitS d.X d.y)
                  group_features := pySet s.group_features d.gid d.cols
                  group_developer_stats :=
                    pySet s.group_developer_stats d.gid stats } : MLState M S),
                tg + 1, ts + d.X.length))
        (some (st2, 0, 0))
      match fitted with
      | none => none
      | some (st3, trained_groups, total_samples) =>
        match prepareTeams new_prs (allTeams new_prs) st3.team_member_stats
            st3.team_features with
        | none => none
        | some (tds, tms', tfeats') =>
          let st4 : MLState M S := { st3 with team_member_stats := tms',
                                              team_features := tfeats' }
          let tres := tds.foldl
            (fun (acc : MLState M S × Nat × Nat) d =>
              ({ acc.1 with
                  team_models := pySet acc.1.team_models d.team (fitC d.X d.y)
                  team_scalers := pySet acc.1.team_scalers d.team (fitS d.X d.y) },
                acc.2.1 + 1, acc.2.2 + d.X.length))
            (st4, 0, 0)
          let st6 : MLState M S := { tres.1 with is_trained := true,
                                                 training_date := some nowIso }
          some (st6,
            .completed trained_groups tres.2.1 total_samples tres.2.2 nowIso
              (st6.group_models.map Prod.fst) (st6.team_models.map Prod.fst)
              rules.length pr_limit new_prs.length,
            some st6.processed_prs)

/-!
## Claim theorems: training (C3, C4)
-/

theorem collectLoop_all_processed :
    ∀ (candidates : List PRData) (processed : List Nat) (limit : Nat),
      (∀ pr ∈ candidates, pr.pr_number ∈ processed) →
      collectLoop candidates processed limit = ([], processed) := by
  intro candidates
  induction candidates with
  | nil => intro p l _; rfl
  | cons pr rest ih =>
    intro p l h
    unfold collectLoop
    by_cases hl : l = 0
    · rw [if_pos hl]
    · rw [if_neg hl, if_pos (h pr (List.mem_cons_self _ _))]
      exact ih p l fun q hq => h q (List.mem_cons_of_mem _ hq)

/-- C3.  A training run over a history whose every collected change id is
already in the processed-id ledger returns the "no new PRs" skip result,
leaves every stored model, statistic and feature list untouched (the
returned state differs from the input state only in the in-memory
processed-id set reloaded from the ledger and the freshly parsed rule
list), and writes nothing back to the ledger. -/
theorem c3_idempotent_training {M S : Type}
    (fitC : List (List ℚ) → List Nat → M) (fitS : List (List ℚ) → List Nat → S)
    (st : MLState M S) (logProcessed : List Nat) (rules : List Rule)
    (candidates : List PRData) (pr_limit : Nat) (nowIso : PyStr)
    (hall : ∀ pr ∈ candidates, pr.pr_number ∈ logProcessed) :
    trainStep fitC fitS st logProcessed rules candidates pr_limit nowIso =
      some ({ st with processed_prs := logProcessed, codeowners_patterns := rules },
        .skipped st.group_models.length 0 st.training_date
          (st.group_models.map Prod.fst) rules.length
          (("No new PRs found - training skipped").toList),
        none) := by
  unfold trainStep
  dsimp only
  rw [collectLoop_all_processed candidates logProcessed pr_limit hall]
  rfl

/-- The pristine state `CodeownersMLPredictor.__init__` builds. -/
def initialState : MLState Unit Unit :=
  { group_models := [], group_features := [], group_scalers := []
    group_developer_stats := [], team_models := [], team_features := []
    team_scalers := [], team_member_stats := [], codeowners_patterns := []
    is_trained := false, training_date := none, processed_prs := [] }

/-- Witness for C3: one candidate record whose id is already in the ledger
produces the skip result and an unchanged (but reloaded) state. -/
theorem c3_idempotent_training_witness :
    (∀ pr ∈ [c5pr], pr.pr_number ∈ [1]) ∧
    trainStep (fun _ _ => ()) (fun _ _ => ()) initialState [1] [] [c5pr] 1000
        (("now").toList) =
      some ({ initialState with processed_prs := [1], codeowners_patterns := [] },
        .skipped 0 0 none [] 0 (("No new PRs found - training skipped").toList),
        none) :=
  ⟨by decide,
    c3_idempotent_training (fun _ _ => ()) (fun _ _ => ()) initialState [1] []
      [c5pr] 1000 (("now").toList) (by decide)⟩

/-- Membership in the prepared group datasets is exactly the threshold
test on the group's labeled samples. -/
theorem prepareGroups_mem (raw : List PRData) :
    ∀ (gids : List PyStr) (ds : List GroupDataset) (gid : PyStr),
      prepareGroups raw gids = some ds →
      ((∃ d ∈ ds, d.gid = gid) ↔
        gid ∈ gids ∧
          ∃ samples labels, samplesForGroup raw gid = some (samples, labels) ∧
            20 ≤ samples.length ∧ 3 ≤ labels.sum ∧ 3 ≤ labels.length - labels.sum) := by
  intro gids
  induction gids with
  | nil =>
    intro ds gid h
    cases h
    simp
  | cons g rest ih =>
    intro ds gid h
    unfold prepareGroups at h
    rcases hsg : samplesForGroup raw g with - | sl
    · rw [hsg] at h
      exact Option.noConfusion h
    · rw [hsg] at h
      obtain ⟨samples₀, labels₀⟩ := sl
      rcases hrest : prepareGroups raw rest with - | ds'
      · rw [hrest] at h
        exact Option.noConfusion h
      · rw [hrest] at h
        dsimp only at h
        by_cases hth : 20 ≤ samples₀.length ∧ 3 ≤ labels₀.sum ∧
            3 ≤ labels₀.length - labels₀.sum
        · rw [if_pos hth] at h
          obtain rfl := (Option.some_inj.mp h).symm
          constructor
          · rintro ⟨d, hd, hgid⟩
            rcases List.mem_cons.mp hd with rfl | hd'
            · obtain rfl : g = gid := hgid
              exact ⟨List.mem_cons_self _ _, samples₀, labels₀, hsg, hth⟩
            · obtain ⟨hmem, pack⟩ := (ih ds' gid hrest).mp ⟨d, hd', hgid⟩
              exact ⟨List.mem_cons_of_mem _ hmem, pack⟩
          · rintro ⟨hmem, samples, labels, hsl, hlen, hpos, hneg⟩
            rcases List.mem_cons.mp hmem with rfl | hmem'
            · exact ⟨_, List.mem_cons_self _ _, rfl⟩
            · obtain ⟨d, hd', hgid⟩ :=
                (ih ds' gid hrest).mpr ⟨hmem', samples, labels, hsl, hlen, hpos, hneg⟩
              exact ⟨d, List.mem_cons_of_mem _ hd', hgid⟩
        · rw [if_neg hth] at h
          obtain rfl := Option.some_inj.mp h
          constructor
          · intro hex
            obtain ⟨hmem, pack⟩ := (ih _ gid hrest).mp hex
            exact ⟨List.mem_cons_of_mem _ hmem, pack⟩
          · rintro ⟨hmem, samples, labels, hsl, hlen, hpos, hneg⟩
            rcases List.mem_cons.mp hmem with rfl | hmem'
            · rw [hsg] at hsl
              obtain ⟨h1, h2⟩ := Prod.mk.injEq .. ▸ Option.some_inj.mp hsl
              subst h1 h2
              exact absurd ⟨hlen, hpos, hneg⟩ hth
            · exact (ih _ gid hrest).mpr ⟨hmem', samples, labels, hsl, hlen, hpos, hneg⟩

/-- C4.  A group's classifier is fitted in a training run iff its labeled
dataset reaches 20 total samples with at least 3 positives and 3 negatives:
the datasets handed to the fitting loop (whose every element becomes a
trained model) contain a group exactly under that threshold; groups below it
are skipped while the rest of the run proceeds. -/
theorem c4_training_thresholds (raw : List PRData) (gid : PyStr)
    (ds : List GroupDataset) (hprep : prepare_group_training_data raw = some ds) :
    (∃ d ∈ ds, d.gid = gid) ↔
      gid ∈ allGroupIds raw ∧
        ∃ samples labels, samplesForGroup raw gid = some (samples, labels) ∧
          20 ≤ samples.length ∧ 3 ≤ labels.sum ∧ 3 ≤ labels.length - labels.sum := by
  unfold prepare_group_training_data at hprep
  exact prepareGroups_mem raw (allGroupIds raw) ds gid hprep

/-- Witness for C4: the single-record history yields one labeled sample for
group `"d"` (below every threshold), so the prepared datasets are empty and
the group is excluded. -/
theorem c4_training_thresholds_witness :
    (¬ ∃ d ∈ ([] : List GroupDataset), d.gid = (("d").toList)) ∧
    (samplesForGroup [c5pr] (("d").toList)).map (fun p => p.2) = some [1] := by
  constructor
  · intro hex
    obtain ⟨-, samples, labels, hsl, hlen, -, -⟩ :=
      (c4_training_thresholds [c5pr] (("d").toList) [] (by decide)).mp hex
    have e : (samplesForGroup [c5pr] (("d").toList)).map (fun p => p.1.length) =
        some 1 := by decide
    rw [hsl] at e
    simp only [Option.map_some'] at e
    have h1 : samples.length = 1 := Option.some_inj.mp e
    omega
  · decide

/-!
## PredictionAggregator (`predict_approvers`) and persistence
-/

deriving instance DecidableEq for Except

/-- The two `ValueError`s `predict_approvers` can raise. -/
inductive PredErr
  | notTrained
  | noPatterns
deriving DecidableEq

/-- One entry of the returned prediction list. -/
structure Prediction where
  approver : PyStr
  confidence : ℚ
  probability : ℚ
  reasoning : PyStr
deriving DecidableEq

/-- `developer_scores[dev] += x` on the `defaultdict(float)`. -/
def scoreAccum (scores : List (PyStr × ℚ)) (dev : PyStr) (x : ℚ) : List (PyStr × ℚ) :=
  match scores with
  | [] => [(dev, x)]
  | (d, v) :: rest => if d = dev then (d, v + x) :: rest else (d, v) :: scoreAccum rest dev x

/-- The dummy PR dict `predict_approvers` builds per resolved group. -/
def predDummy (files : List PyStr) (gid : PyStr) (group_files : List PyStr)
    (nowD : DateParts) : PRData :=
  { pr_number := 0, files := files, file_groups := [(gid, group_files)]
    approvers := [], author := [], additions := 100, deletions := 50
    title := (("Test PR").toList), created_at := some nowD }

/-- `prob[1] if len(prob) > 1 else prob[0]`. -/
def approvalProb (prob : List ℚ) : Option ℚ :=
  if 1 < prob.length then prob.get? 1 else prob.get? 0

/-- The per-owner scoring attempt for an individual owner of a group with a
trained model (`none` embeds the caught-and-skipped exception path:
`KeyError` on a missing scaler, an empty probability row, or the weight
division). -/
def groupOwnerScore {M S : Type} (predictProba : M → List ℚ → List (List ℚ))
    (transform : S → List ℚ → List ℚ)
    (group_models : List (PyStr × M)) (group_scalers : List (PyStr × S))
    (gds : List (PyStr × List (PyStr × GroupStats)))
    (dummy : PRData) (gid owner : PyStr) (group_files files : List PyStr) : Option ℚ :=
  match engineer_group_features_for_prediction gds dummy gid owner with
  | none => none
  | some fv =>
    match pyGet group_scalers gid with
    | none => none
    | some sc =>
      match pyGet group_models gid with
      | none => none
      | some m =>
        match (predictProba m (transform sc (featureVals fv))).get? 0 with
        | none => none
        | some prob =>
          match approvalProb prob with
          | none => none
          | some p =>
            match pyDivN group_files.length files.length with
            | none => none
            | some w => some (p * w)

/-- The per-member scoring attempt for a member of a team owner with a
trained team model. -/
def teamMemberScore {M S : Type} (predictProba : M → List ℚ → List (List ℚ))
    (transform : S → List ℚ → List ℚ)
    (team_models : List (PyStr × M)) (team_scalers : List (PyStr × S))
    (tms : List (PyStr × List (PyStr × TeamStats)))
    (dummy : PRData) (team member : PyStr) (group_files files : List PyStr) : Option ℚ :=
  let fv := engineer_team_features_for_prediction tms dummy team member
  match pyGet team_scalers team with
  | none => none
  | some sc =>
    match pyGet team_models team with
    | none => none
    | some m =>
      match (predictProba m (transform sc (featureVals fv))).get? 0 with
      | none => none
      | some prob =>
        match approvalProb prob with
        | none => none
        | some p =>
          match pyDivN group_files.length files.length with
          | none => none
          | some w => some (p * w)

/-- The score-accumulation loops of `predict_approvers`: resolved groups
without a trained model are skipped outright; team owners fan out to the
stored team members; any per-candidate exception skips that candidate. -/
def predictScores {M S : Type} (predictProba : M → List ℚ → List (List ℚ))
    (transform : S → List ℚ → List ℚ)
    (group_models : List (PyStr × M)) (group_scalers : List (PyStr × S))
    (gds : List (PyStr × List (PyStr × GroupStats)))
    (team_models : List (PyStr × M)) (team_scalers : List (PyStr × S))
    (tms : List (PyStr × List (PyStr × TeamStats)))
    (files : List PyStr) (nowD : DateParts) (file_groups : FileGroups) :
    List (PyStr × ℚ) :=
  file_groups.foldl
    (fun scores p =>
      if (pyGet group_models p.1).isSome then
        let dummy := predDummy files p.1 p.2 nowD
        (pySplitChar '_' p.1).foldl
          (fun sc owner =>
            if '/' ∈ owner then
              if (pyGet team_models owner).isSome then
                (((pyGet tms owner).getD []).map Prod.fst).foldl
                  (fun sc2 member =>
                    match teamMemberScore predictProba transform team_models team_scalers
                        tms dummy owner member p.2 files with
                    | none => sc2
                    | some x => scoreAccum sc2 member x)
                  sc
              else sc
            else
              match groupOwnerScore predictProba transform group_models group_scalers
                  gds dummy p.1 owner p.2 files with
              | none => sc
              | some x => scoreAccum sc owner x)
          scores
      else scores)
    []

/-- `sorted(developer_scores.items(), key=score, reverse=True)`: a stable
sort, descending on the accumulated score. -/
def sortScores (scores : List (PyStr × ℚ)) : List (PyStr × ℚ) :=
  List.insertionSort (fun a b => b.2 ≤ a.2) scores

/-- How many resolved groups with a trained model list the developer as an
owner. -/
def groupModelCount {M : Type} (group_models : List (PyStr × M))
    (file_groups : FileGroups) (developer : PyStr) : Nat :=
  file_groups.countP
    (fun p => (pyGet group_models p.1).isSome &&
      decide (developer ∈ pySplitChar '_' p.1))

/-- How many (group, team-owner) pairs with a trained team model list the
developer among the stored team members. -/
def teamModelCount {M : Type} (team_models : List (PyStr × M))
    (tms : List (PyStr × List (PyStr × TeamStats)))
    (file_groups : FileGroups) (developer : PyStr) : Nat :=
  file_groups.foldl
    (fun n p =>
      (pySplitChar '_' p.1).foldl
        (fun n2 owner =>
          if ('/' ∈ owner) ∧ (pyGet team_models owner).isSome ∧
              developer ∈ ((pyGet tms owner).getD []).map Prod.fst
          then n2 + 1 else n2)
        n)
    0

/-- Decimal rendering of a count, as Python string formatting does. -/
def natToChars (n : Nat) : PyStr := (Nat.repr n).toList

/-- Python `' and '.join(parts)`. -/
def pyJoinStr (sep : PyStr) : List PyStr → PyStr
  | [] => []
  | [x] => x
  | x :: xs => x ++ sep ++ pyJoinStr sep xs

/-- The reasoning fragments chosen from the two model-family counts. -/
def reasonParts (group_count team_count : Nat) : List PyStr :=
  if 0 < group_count ∧ 0 < team_count then
    [(("CODEOWNERS group model (").toList) ++ natToChars group_count ++ ((" groups)").toList),
     (("team approval model (").toList) ++ natToChars team_count ++ ((" teams)").toList)]
  else if 0 < group_count then
    [(("CODEOWNERS group model (").toList) ++ natToChars group_count ++ ((" groups)").toList)]
  else if 0 < team_count then
    [(("team approval model (").toList) ++ natToChars team_count ++ ((" teams)").toList)]
  else [(("unknown model").toList)]

/-- The final assembly of the top-k prediction dicts. -/
def buildPredictions {M : Type} (group_models team_models : List (PyStr × M))
    (tms : List (PyStr × List (PyStr × TeamStats)))
    (file_groups : FileGroups) (sorted_predictions : List (PyStr × ℚ))
    (top_k : Nat) : List Prediction :=
  (sorted_predictions.take top_k).map
    (fun p =>
      { approver := p.1
        confidence := min (p.2 * 100) 100
        probability := p.2
        reasoning := (("ML prediction from ").toList) ++
          pyJoinStr ((" and ").toList)
            (reasonParts (groupModelCount group_models file_groups p.1)
              (teamModelCount team_models tms file_groups p.1)) })

/-- The body of `predict_approvers` over the fields it reads. -/
def predictCore {M S : Type} (predictProba : M → List ℚ → List (List ℚ))
    (transform : S → List ℚ → List ℚ)
    (is_trained : Bool) (patterns : List Rule)
    (group_models : List (PyStr × M)) (group_scalers : List (PyStr × S))
    (gds : List (PyStr × List (PyStr × GroupStats)))
    (team_models : List (PyStr × M)) (team_scalers : List (PyStr × S))
    (tms : List (PyStr × List (PyStr × TeamStats)))
    (files : List PyStr) (top_k : Nat) (nowD : DateParts) :
    Except PredErr (List Prediction) :=
  if is_trained = false then .error .notTrained
  else if patterns = [] then .error .noPatterns
  else
    let file_groups := match_files_to_groups files patterns
    if file_groups = [] then .ok []
    else
      .ok (buildPredictions group_models team_models tms file_groups
        (sortScores (predictScores predictProba transform group_models group_scalers
          gds team_models team_scalers tms files nowD file_groups)) top_k)

/-- `CodeownersMLPredictor.predict_approvers`: raises NotTrained before the
training flag is set and NoPatterns without rules; returns the empty list
when no file resolves to any group; otherwise aggregates weighted per-group
and per-team probabilities into a ranked top-k list.  The current time
(`datetime.now()` in the dummy PR) is the explicit `nowD` input. -/
def predict_approvers {M S : Type} (predictProba : M → List ℚ → List (List ℚ))
    (transform : S → List ℚ → List ℚ) (st : MLState M S)
    (files : List PyStr) (top_k : Nat) (nowD : DateParts) :
    Except PredErr (List Prediction) :=
  predictCore predictProba transform st.is_trained st.codeowners_patterns
    st.group_models st.group_scalers st.group_developer_stats
    st.team_models st.team_scalers st.team_member_stats files top_k nowD

/-- The serialized bundle `save_model` writes (`joblib.dump` of the
`model_data` dict). -/
structure ModelBundle (M S : Type) where
  group_models : List (PyStr × M)
  group_features : List (PyStr × List PyStr)
  group_scalers : List (PyStr × S)
  group_developer_stats : List (PyStr × List (PyStr × GroupStats))
  team_models : List (PyStr × M)
  team_features : List (PyStr × List PyStr)
  team_scalers : List (PyStr × S)
  team_member_stats : List (PyStr × List (PyStr × TeamStats))
  codeowners_patterns : List Rule
  is_trained : Bool
  training_date : Option PyStr
deriving DecidableEq

/-- `CodeownersMLPredictor.save_model`: persist every model-relevant field. -/
def save_model {M S : Type} (st : MLState M S) : ModelBundle M S :=
  { group_models := st.group_models, group_features := st.group_features
    group_scalers := st.group_scalers, group_developer_stats := st.group_developer_stats
    team_models := st.team_models, team_features := st.team_features
    team_scalers := st.team_scalers, team_member_stats := st.team_member_stats
    codeowners_patterns := st.codeowners_patterns, is_trained := st.is_trained
    training_date := st.training_date }

/-- `CodeownersMLPredictor.load_model` applied to the receiving predictor
state: overwrite every persisted field, leave the rest (the processed-id
set) as the receiver had it.  (The `.get(key, {})` defaults in the source
only matter for bundles lacking keys, which `save_model` never produces.) -/
def load_model {M S : Type} (b : ModelBundle M S) (st : MLState M S) : MLState M S :=
  { st with
    group_models := b.group_models, group_features := b.group_features
    group_scalers := b.group_scalers, group_developer_stats := b.group_developer_stats
    team_models := b.team_models, team_features := b.team_features
    team_scalers := b.team_scalers, team_member_stats := b.team_member_stats
    codeowners_patterns := b.codeowners_patterns, is_trained := b.is_trained
    training_date := b.training_date }

/-!
## Claim theorems: prediction and persistence (C6, C7)
-/

/-- C7.  Saving a state and loading the bundle back (into any receiving
predictor) reproduces every field `predict_approvers` reads, so prediction
on the reloaded state is identical to prediction on the original state for
every file list, `top_k`, clock value, and (opaque, fixed-seed) classifier
and scaler behaviour. -/
theorem c7_save_load_round_trip {M S : Type}
    (predictProba : M → List ℚ → List (List ℚ)) (transform : S → List ℚ → List ℚ)
    (st st₀ : MLState M S) (files : List PyStr) (top_k : Nat) (nowD : DateParts) :
    predict_approvers predictProba transform (load_model (save_model st) st₀)
        files top_k nowD =
      predict_approvers predictProba transform st files top_k nowD := rfl

/-- C6 (amended).  `predict_approvers` fails with the NotTrained error
exactly when the `is_trained` flag is still unset: with the flag set it
never reports NotTrained (even when no group or team model exists — see the
counterexample), and when files match no ownership rule it returns the
empty NoMatch result, never a silent wrong non-empty answer. -/
theorem c6_prediction_errors {M S : Type}
    (predictProba : M → List ℚ → List (List ℚ)) (transform : S → List ℚ → List ℚ)
    (st : MLState M S) (files : List PyStr) (top_k : Nat) (nowD : DateParts) :
    (st.is_trained = false →
      predict_approvers predictProba transform st files top_k nowD =
        .error .notTrained) ∧
    (st.is_trained = true →
      predict_approvers predictProba transform st files top_k nowD ≠
        .error .notTrained) ∧
    (st.is_trained = true → st.codeowners_patterns ≠ [] →
      match_files_to_groups files st.codeowners_patterns = [] →
      predict_approvers predictProba transform st files top_k nowD = .ok []) := by
  unfold predict_approvers predictCore
  refine ⟨?_, ?_, ?_⟩
  · intro h
    rw [h]
    rfl
  · intro h
    rw [h]
    rw [if_neg (by simp)]
    by_cases hp : st.codeowners_patterns = []
    · rw [if_pos hp]
      intro hc
      exact PredErr.noConfusion (Except.error.inj hc)
    · rw [if_neg hp]
      dsimp only
      by_cases hfg : match_files_to_groups files st.codeowners_patterns = []
      · rw [if_pos hfg]
        intro hc
        exact Except.noConfusion hc
      · rw [if_neg hfg]
        intro hc
        exact Except.noConfusion hc
  · intro h hp hfg
    rw [h]
    rw [if_neg (by simp), if_neg hp]
    dsimp only
    rw [if_pos hfg]

/-- Witness for C6 (amended): on the pristine untrained state, prediction
fails with NotTrained. -/
theorem c6_prediction_errors_witness :
    predict_approvers (fun _ _ => ([] : List (List ℚ))) (fun _ _ => ([] : List ℚ))
        initialState [] 5 ⟨0, 0, 0⟩ = .error .notTrained :=
  (c6_prediction_errors (fun _ _ => ([] : List (List ℚ))) (fun _ _ => ([] : List ℚ))
    initialState [] 5 ⟨0, 0, 0⟩).1 rfl

/-- C6 counterexample.  A completed training run in which the only group
falls below the sample thresholds fits no group or team model but still
sets `is_trained`; invoking prediction on that state — a state in which no
group or team has a trained model — returns `ok []` instead of failing with
the NotTrained error, refuting the claim's "whenever". -/
theorem c6_no_model_counterexample :
    (trainStep (M := Unit) (S := Unit) (fun _ _ => ()) (fun _ _ => ()) initialState []
        [⟨(("*").toList), [(("d").toList)], 0⟩] [c5pr] 1000 (("now").toList)).map
      (fun r => (r.1.group_models, r.1.team_models, r.1.is_trained,
        predict_approvers (fun _ _ => ([] : List (List ℚ))) (fun _ _ => ([] : List ℚ))
          r.1 [(("a.py").toList)] 5 ⟨0, 0, 0⟩)) =
    some ([], [], true, .ok []) := rfl
